import Mathlib

/-!
Shallow embedding of `simulator.py` (elastic-collisions-2d): a 2D physics
simulation of elastic collisions between circles, with a quadtree used for
collision detection.  Python objects are mutable and aliased by reference;
the body collection is modelled as a list of `Object` values and bodies are
referred to by index (their Python identity).  numpy floats are modelled by
real numbers; an operation that numpy turns into NaN poisoning (division by
a zero norm) or that does not terminate (the unbounded subdivision
recursion) is modelled by `Option`, where `none` means the Python run does
not produce a value.
-/

open Classical

noncomputable section

namespace Simulator

/-- Embeds the state stored by `Object.__init__` (simulator.py:79-85): a
circular object with position and velocity vectors, radius `size`, a
presentation `color` and a `mass`. -/
structure Object where
  pos : ℝ × ℝ
  vel : ℝ × ℝ
  size : ℝ
  color : ℕ × ℕ × ℕ
  mass : ℝ

instance : Inhabited Object := ⟨⟨(0, 0), (0, 0), 0, (0, 0, 0), 0⟩⟩

/-- Embeds `Object.dist` (simulator.py:87-88):
`np.linalg.norm(self.pos - other.pos)`. -/
def Object.dist (a b : Object) : ℝ :=
  Real.sqrt ((a.pos.1 - b.pos.1) ^ 2 + (a.pos.2 - b.pos.2) ^ 2)

/-- Embeds `Object.collides` (simulator.py:90-92): distance at most the sum
of the radii (touching counts). -/
def Object.collides (a b : Object) : Prop :=
  a.dist b ≤ a.size + b.size

/-- Looks a body up by its index (Python object identity). -/
def objAt (store : List Object) (i : ℕ) : Object :=
  store.getD i default

/-- The overlap test of `inside` (simulator.py:42) for the body of index
`i` against the rectangle with upper-left corner `pos` and dimensions
`size`: `x <= p[0]+s and p[0]-s < x+w and y <= p[1]+s and p[1]-s < y+h`. -/
def insideCond (store : List Object) (pos size : ℝ × ℝ) (i : ℕ) : Prop :=
  pos.1 ≤ (objAt store i).pos.1 + (objAt store i).size ∧
    (objAt store i).pos.1 - (objAt store i).size < pos.1 + size.1 ∧
    pos.2 ≤ (objAt store i).pos.2 + (objAt store i).size ∧
    (objAt store i).pos.2 - (objAt store i).size < pos.2 + size.2

/-- Embeds `inside` (simulator.py:31-44): the sublist of the given bodies
whose bounding squares overlap the rectangle `pos`/`size`. -/
def inside (store : List Object) (pos size : ℝ × ℝ) : List ℕ → List ℕ
  | [] => []
  | i :: rest =>
      if insideCond store pos size i then i :: inside store pos size rest
      else inside store pos size rest

/-- Embeds `Node` (simulator.py:99-104) as it stands once
`recursive_subdivide` has finished: a leaf keeps its list of body indices
(`points`); an internal node has exactly four children and its `points`
list has been reset to the empty list (simulator.py:75-76). -/
inductive QTree where
  | leaf (pos size : ℝ × ℝ) (points : List ℕ)
  | node (pos size : ℝ × ℝ) (x1 x2 x3 x4 : QTree)

/-- Embeds `QUADTREE_K` (simulator.py:28). -/
def QUADTREE_K : ℕ := 5

/-- Embeds `recursive_subdivide` (simulator.py:47-76).  The Python function
has no depth bound and need not terminate; `fuel` bounds the recursion
depth, and a result of `none` for every `fuel` means the Python call never
returns.  Note that the source filters the first child `x1` with the full
parent rectangle `node.size` (simulator.py:54) while `x2`, `x3`, `x4` are
filtered with the half-size quadrant. -/
def recursive_subdivide (store : List Object) (k : ℕ) :
    ℕ → (ℝ × ℝ) → (ℝ × ℝ) → List ℕ → Option QTree
  | fuel, pos, size, pts =>
    if pts.length ≤ k then some (.leaf pos size pts)
    else
      match fuel with
      | 0 => none
      | fuel + 1 =>
        let half := (size.1 / 2, size.2 / 2)
        do
          let t1 ← recursive_subdivide store k fuel pos half
            (inside store pos size pts)
          let t2 ← recursive_subdivide store k fuel (pos.1 + half.1, pos.2) half
            (inside store (pos.1 + half.1, pos.2) half pts)
          let t3 ← recursive_subdivide store k fuel (pos.1, pos.2 + half.2) half
            (inside store (pos.1, pos.2 + half.2) half pts)
          let t4 ← recursive_subdivide store k fuel
            (pos.1 + half.1, pos.2 + half.2) half
            (inside store (pos.1 + half.1, pos.2 + half.2) half pts)
          pure (.node pos size t1 t2 t3 t4)

/-- Embeds `Collision.__eq__` (simulator.py:111-112) on index pairs:
equality as unordered pairs of body identities. -/
def collEq (c d : ℕ × ℕ) : Prop :=
  (c.1 = d.1 ∧ c.2 = d.2) ∨ (c.1 = d.2 ∧ c.2 = d.1)

instance (c d : ℕ × ℕ) : Decidable (collEq c d) := by
  unfold collEq; infer_instance

/-- Embeds the Python membership test `coll in self.collisions`
(simulator.py:128), which compares elements with `Collision.__eq__`. -/
def collMem (c : ℕ × ℕ) (l : List (ℕ × ℕ)) : Prop :=
  ∃ d ∈ l, collEq d c

/-- The inner loop of the leaf scan in `Space.traverse`
(simulator.py:126-129): `obj` fixed to index `i`, `obj2` running over the
leaf's points, appending the pair when the two objects are distinct,
collide, and the pair is not yet recorded. -/
def scanInner (store : List Object) (i : ℕ) :
    List ℕ → List (ℕ × ℕ) → List (ℕ × ℕ)
  | [], acc => acc
  | j :: rest, acc =>
      if i ≠ j ∧ (objAt store i).collides (objAt store j) ∧ ¬ collMem (i, j) acc
      then scanInner store i rest (acc ++ [(i, j)])
      else scanInner store i rest acc

/-- The outer loop of the leaf scan in `Space.traverse`
(simulator.py:125). -/
def scanOuter (store : List Object) (pts : List ℕ) :
    List ℕ → List (ℕ × ℕ) → List (ℕ × ℕ)
  | [], acc => acc
  | i :: rest, acc => scanOuter store pts rest (scanInner store i pts acc)

/-- Embeds `Space.traverse` (simulator.py:121-135): walk the tree, scanning
every leaf's point list for colliding pairs, threading the accumulated
`self.collisions` list through the recursion. -/
def traverse (store : List Object) : QTree → List (ℕ × ℕ) → List (ℕ × ℕ)
  | .leaf _ _ pts, acc => scanOuter store pts pts acc
  | .node _ _ t1 t2 t3 t4, acc =>
      traverse store t4 (traverse store t3 (traverse store t2 (traverse store t1 acc)))

/-- Embeds the state stored by `Space.__init__` (simulator.py:115-119): the
body store, the window dimensions, and the persistent pending-collision
list (initially empty). -/
structure Space where
  objects : List Object
  dim : ℝ × ℝ
  collisions : List (ℕ × ℕ)

/-- Embeds `Space.find_collisions` (simulator.py:138-147): build the
quadtree from a root covering the whole space whose points are all the
bodies, then traverse it, appending detected pairs to the pending list.
`none` models a Python run whose subdivision is still recursing after
`fuel` levels. -/
def find_collisions (fuel : ℕ) (s : Space) : Option Space :=
  (recursive_subdivide s.objects QUADTREE_K fuel (0, 0) s.dim
      (List.range s.objects.length)).map
    fun t => { s with collisions := traverse s.objects t s.collisions }

/-- The velocity rotation of `Space.handle_collisions`
(simulator.py:170-174): rotation by `theta = atan2(-d.2, d.1)`.  The matrix
entries are written via `cos theta = d.1 / n` and `sin theta = -d.2 / n`
with `n = |d|`; the lemma `rotVec_cos_sin_arg` below proves these equal the
source's `cos`/`sin` of `atan2`. -/
def rotVec (d w : ℝ × ℝ) : ℝ × ℝ :=
  let n := Real.sqrt (d.1 ^ 2 + d.2 ^ 2)
  (d.1 / n * w.1 - -d.2 / n * w.2, -d.2 / n * w.1 + d.1 / n * w.2)

/-- The inverse rotation of `Space.handle_collisions`
(simulator.py:184-186): the transpose matrix. -/
def unrotVec (d w : ℝ × ℝ) : ℝ × ℝ :=
  let n := Real.sqrt (d.1 ^ 2 + d.2 ^ 2)
  (d.1 / n * w.1 + -d.2 / n * w.2, - (-d.2 / n) * w.1 + d.1 / n * w.2)

/-- Embeds the per-collision block of `Space.handle_collisions`
(simulator.py:157-186) on a pair of bodies: separate the bodies along the
line of centers so they touch instead of overlapping, rotate the velocities
so the pair lies on the x-axis, apply the 1D elastic-collision equations to
the x-components, rotate back.  When the centers coincide the norm is zero
and numpy's division produces NaN (the source has no guard); the poisoned
outcome is modelled by `none`. -/
def resolve_pair (a b : Object) : Option (Object × Object) :=
  let d := (b.pos.1 - a.pos.1, b.pos.2 - a.pos.2)
  let n := Real.sqrt (d.1 ^ 2 + d.2 ^ 2)
  if n = 0 then none
  else
    let v := (d.1 / n, d.2 / n)
    let ol := (a.size + b.size - b.dist a) / 2
    let va := rotVec d a.vel
    let vb := rotVec d b.vel
    let m := a.mass + b.mass
    let vf1 := ((a.mass - b.mass) * va.1 + 2 * b.mass * vb.1) / m
    let vf2 := ((b.mass - a.mass) * vb.1 + 2 * a.mass * va.1) / m
    some ({ a with pos := (a.pos.1 - ol * v.1, a.pos.2 - ol * v.2),
                   vel := unrotVec d (vf1, va.2) },
          { b with pos := (b.pos.1 + ol * v.1, b.pos.2 + ol * v.2),
                   vel := unrotVec d (vf2, vb.2) })

/-- One loop iteration's mutation of the body store: the collision's two
bodies are overwritten in place (Python mutates the shared objects, which
the store indexes by identity). -/
def resolve_collision (objs : List Object) (c : ℕ × ℕ) : Option (List Object) :=
  (resolve_pair (objAt objs c.1) (objAt objs c.2)).map
    fun p => (objs.set c.1 p.1).set c.2 p.2

/-- Embeds `self.collisions.remove(c)` (simulator.py:189): Python's
`list.remove` deletes the first element that compares equal (via
`Collision.__eq__`) to `c`.  (Were no element to match, Python would raise
`ValueError`; this cannot happen here since `c` was read from the list.) -/
def removeFirst (c : ℕ × ℕ) : List (ℕ × ℕ) → List (ℕ × ℕ)
  | [] => []
  | d :: rest => if collEq d c then rest else d :: removeFirst c rest

theorem removeFirst_length_le (c : ℕ × ℕ) (l : List (ℕ × ℕ)) :
    (removeFirst c l).length ≤ l.length := by
  induction l with
  | nil => simp [removeFirst]
  | cons d rest ih =>
      by_cases h : collEq d c
      · simp only [removeFirst, if_pos h, List.length_cons]
        omega
      · simp only [removeFirst, if_neg h, List.length_cons]
        omega

/-- Embeds the `for c in self.collisions` loop of `Space.handle_collisions`
(simulator.py:157-190) with CPython's list-iterator semantics: an internal
index `i` advances by one per iteration while `remove` shrinks the list in
place, so elements sliding into already-visited positions are skipped.  The
loop ends when the index reaches the current length. -/
def handleLoop (objs : List Object) (cs : List (ℕ × ℕ)) (i : ℕ) :
    Option (List Object × List (ℕ × ℕ)) :=
  if h : i < cs.length then
    match resolve_collision objs (cs.getD i (0, 0)) with
    | none => none
    | some objs2 => handleLoop objs2 (removeFirst (cs.getD i (0, 0)) cs) (i + 1)
  else some (objs, cs)
termination_by cs.length - i
decreasing_by
  have hlen := removeFirst_length_le (cs.getD i (0, 0)) cs
  omega

/-- Embeds `Space.handle_collisions` (simulator.py:154-190): detect, then
iterate over the pending list resolving pairs and removing them. -/
def handle_collisions (fuel : ℕ) (s : Space) : Option Space :=
  (find_collisions fuel s).bind fun s1 =>
    (handleLoop s1.objects s1.collisions 0).map
      fun r => { s1 with objects := r.1, collisions := r.2 }

/-- Embeds the per-body block of `Space.move_objects`
(simulator.py:193-213): integrate `pos += vel`, then the four boundary
checks.  The source reads `x, y = obj.pos` once right after the move, so
the four conditions test the unclamped position while the assignments
update the current state. -/
def moveObject (dim : ℝ × ℝ) (o : Object) : Object :=
  let p := (o.pos.1 + o.vel.1, o.pos.2 + o.vel.2)
  let x := p.1
  let y := p.2
  let o1 : Object := { o with pos := p }
  let o2 := if y ≥ dim.2 - o1.size then
      { o1 with pos := (o1.pos.1, dim.2 - o1.size), vel := (o1.vel.1, min 0 (-o1.vel.2)) }
    else o1
  let o3 := if x ≤ o2.size then
      { o2 with pos := (o2.size, o2.pos.2), vel := (max 0 (-o2.vel.1), o2.vel.2) }
    else o2
  let o4 := if x ≥ dim.1 - o3.size then
      { o3 with pos := (dim.1 - o3.size, o3.pos.2), vel := (min 0 (-o3.vel.1), o3.vel.2) }
    else o3
  if y ≤ o4.size then
    { o4 with pos := (o4.pos.1, o4.size), vel := (o4.vel.1, max 0 (-o4.vel.2)) }
  else o4

/-- Embeds `Space.move_objects` (simulator.py:193-213). -/
def move_objects (s : Space) : Space :=
  { s with objects := s.objects.map (moveObject s.dim) }

/-- Embeds `Space.update` (simulator.py:216-218): move all bodies, then
handle collisions. -/
def update (fuel : ℕ) (s : Space) : Option Space :=
  handle_collisions fuel (move_objects s)

/-- Embeds construction `Object(pos, size, vel, mass, color)`
(simulator.py:80-85): the constructor stores its arguments without any
validation. -/
def mkObject (pos : ℝ × ℝ) (size : ℝ) (vel : ℝ × ℝ) (mass : ℝ)
    (color : ℕ × ℕ × ℕ) : Object :=
  { pos := pos, vel := vel, size := size, color := color, mass := mass }

/-- Embeds construction `Space(objects, dim)` (simulator.py:116-119): the
constructor stores its arguments and an empty pending list, without any
validation. -/
def mkSpace (objects : List Object) (dim : ℝ × ℝ) : Space :=
  { objects := objects, dim := dim, collisions := [] }

/-! ### Bridging lemmas: fidelity of the embedded arithmetic -/

/-- The collision predicate in squared form, used to evaluate the
square-root comparison on concrete inputs. -/
theorem collides_iff_sq (a b : Object) :
    a.collides b ↔ 0 ≤ a.size + b.size ∧
      (a.pos.1 - b.pos.1) ^ 2 + (a.pos.2 - b.pos.2) ^ 2 ≤ (a.size + b.size) ^ 2 := by
  unfold Object.collides Object.dist
  exact Real.sqrt_le_iff

/-- Evaluates a square root of a perfect square. -/
theorem sqrt_eval {x c : ℝ} (hc : 0 ≤ c) (h : x = c ^ 2) : Real.sqrt x = c := by
  rw [h, Real.sqrt_sq hc]

/-- Fidelity of `rotVec`/`unrotVec` to the source's rotation matrix
(simulator.py:170-172): for a nonzero difference vector `d`, the matrix
entries `d.1 / n` and `-d.2 / n` (with `n = |d|`) are exactly
`cos theta` and `sin theta` for `theta = atan2(-d.2, d.1)`, since
`atan2 y x` is the argument of the complex number with real part `x` and
imaginary part `y`. -/
theorem rotVec_cos_sin_arg (d : ℝ × ℝ) (hd : d ≠ 0) :
    d.1 / Real.sqrt (d.1 ^ 2 + d.2 ^ 2) = Real.cos (Complex.arg ⟨d.1, -d.2⟩) ∧
      -d.2 / Real.sqrt (d.1 ^ 2 + d.2 ^ 2) = Real.sin (Complex.arg ⟨d.1, -d.2⟩) := by
  have hz : (⟨d.1, -d.2⟩ : ℂ) ≠ 0 := by
    intro h
    rw [Complex.ext_iff] at h
    simp only [Complex.zero_re, Complex.zero_im, neg_eq_zero] at h
    exact hd (Prod.ext h.1 h.2)
  have habs : Complex.abs ⟨d.1, -d.2⟩ = Real.sqrt (d.1 ^ 2 + d.2 ^ 2) := by
    rw [Complex.abs_apply, Complex.normSq_mk]
    congr 1
    ring
  refine ⟨?_, ?_⟩
  · rw [Complex.cos_arg hz, habs]
  · rw [Complex.sin_arg, habs]

/-- The rotation is orthogonal: for a nonzero difference vector, applying
the transpose and then the rotation is the identity (the source relies on
this at simulator.py:184). -/
theorem rotVec_unrotVec (d : ℝ × ℝ)
    (hn : Real.sqrt (d.1 ^ 2 + d.2 ^ 2) ≠ 0) (w : ℝ × ℝ) :
    rotVec d (unrotVec d w) = w := by
  have hsq : Real.sqrt (d.1 ^ 2 + d.2 ^ 2) ^ 2 = d.1 ^ 2 + d.2 ^ 2 :=
    Real.sq_sqrt (by positivity)
  have hne : d.1 ^ 2 + d.2 ^ 2 ≠ 0 := fun h0 => hn (by rw [h0, Real.sqrt_zero])
  unfold rotVec unrotVec
  have h1 : (d.1 / Real.sqrt (d.1 ^ 2 + d.2 ^ 2)) ^ 2 +
      (-d.2 / Real.sqrt (d.1 ^ 2 + d.2 ^ 2)) ^ 2 = 1 := by
    rw [div_pow, div_pow, neg_sq, div_add_div_same, hsq, div_self hne]
  refine Prod.ext ?_ ?_
  · simp only
    linear_combination w.1 * h1
  · simp only
    linear_combination w.2 * h1

/-! ### Generic list lemmas about the embedded operations -/

/-- A rectangle keeping every body of a list filters it to itself. -/
theorem inside_all (store : List Object) (pos size : ℝ × ℝ) (l : List ℕ)
    (h : ∀ i ∈ l, insideCond store pos size i) :
    inside store pos size l = l := by
  induction l with
  | nil => rfl
  | cons i rest ih =>
      rw [inside, if_pos (h i (List.mem_cons_self i rest))]
      rw [ih fun j hj => h j (List.mem_cons_of_mem i hj)]

/-- Body lookup in a replicated store. -/
theorem objAt_replicate (n : ℕ) (o : Object) (i : ℕ) (h : i < n) :
    objAt (List.replicate n o) i = o := by
  induction n generalizing i with
  | zero => omega
  | succ m ih =>
      cases i with
      | zero => rfl
      | succ j =>
          show objAt (List.replicate m o) j = o
          exact ih j (by omega)

/-- Membership in an `inside` filter. -/
theorem mem_inside_iff (store : List Object) (pos size : ℝ × ℝ)
    (l : List ℕ) (i : ℕ) :
    i ∈ inside store pos size l ↔ i ∈ l ∧ insideCond store pos size i := by
  induction l with
  | nil => simp [inside]
  | cons j rest ih =>
      by_cases h : insideCond store pos size j
      · rw [inside, if_pos h]
        constructor
        · intro hm
          rcases List.mem_cons.1 hm with h1 | h1
          · exact ⟨List.mem_cons.2 (Or.inl h1), h1 ▸ h⟩
          · have := ih.1 h1
            exact ⟨List.mem_cons.2 (Or.inr this.1), this.2⟩
        · intro ⟨hm, hc⟩
          rcases List.mem_cons.1 hm with h1 | h1
          · exact List.mem_cons.2 (Or.inl h1)
          · exact List.mem_cons.2 (Or.inr (ih.2 ⟨h1, hc⟩))
      · rw [inside, if_neg h]
        constructor
        · intro hm
          have := ih.1 hm
          exact ⟨List.mem_cons.2 (Or.inr this.1), this.2⟩
        · intro ⟨hm, hc⟩
          rcases List.mem_cons.1 hm with h1 | h1
          · exact absurd (h1 ▸ hc) h
          · exact ih.2 ⟨h1, hc⟩

/-! ### C7: construction performs no validation -/

/-- A fixed presentation tag used by the concrete test configurations. -/
def c0 : ℕ × ℕ × ℕ := (200, 200, 200)

/-- C7 counterexample: constructing an object with negative mass and
radius, and a space with non-positive bounds, succeeds and stores the
invalid values verbatim; nothing fails at construction time, so the claim
that invalid configurations fail fast with an error is false of the
code. -/
theorem C7_counterexample :
    (mkObject (0, 0) (-2) (0, 0) (-1) c0).mass = -1 ∧
      (mkObject (0, 0) (-2) (0, 0) (-1) c0).size = -2 ∧
      (mkSpace [] (0, -5)).dim = (0, -5) ∧
      (mkSpace [] (0, -5)).objects = [] :=
  ⟨rfl, rfl, rfl, rfl⟩

/-- C7 amended: construction never fails and performs no validation — for
every argument list (including non-positive mass, radius or bounds) the
constructors store the given values unchanged, and a new space starts with
an empty pending-collision list.  (The leaf capacity is the fixed module
constant `QUADTREE_K = 5` and is not configurable.) -/
theorem C7_no_validation (pos vel : ℝ × ℝ) (size mass : ℝ)
    (color : ℕ × ℕ × ℕ) (objects : List Object) (dim : ℝ × ℝ) :
    (mkObject pos size vel mass color).pos = pos ∧
      (mkObject pos size vel mass color).vel = vel ∧
      (mkObject pos size vel mass color).size = size ∧
      (mkObject pos size vel mass color).mass = mass ∧
      (mkObject pos size vel mass color).color = color ∧
      (mkSpace objects dim).objects = objects ∧
      (mkSpace objects dim).dim = dim ∧
      (mkSpace objects dim).collisions = [] ∧
      QUADTREE_K = 5 :=
  ⟨rfl, rfl, rfl, rfl, rfl, rfl, rfl, rfl, rfl⟩

/-! ### C3: the subdivision recursion has no depth bound -/

/-- Six coincident bodies at the origin: one more than `QUADTREE_K`. -/
def store6 : List Object := List.replicate 6 (mkObject (0, 0) 10 (0, 0) 10 c0)

theorem store6_cond (pos : ℝ × ℝ) (size : ℝ × ℝ)
    (hp1 : pos.1 ≤ 10) (hp2 : -10 < pos.1 + size.1)
    (hp3 : pos.2 ≤ 10) (hp4 : -10 < pos.2 + size.2) :
    ∀ i ∈ List.range 6, insideCond store6 pos size i := by
  intro i hi
  have hobj : objAt store6 i = mkObject (0, 0) 10 (0, 0) 10 c0 :=
    objAt_replicate 6 _ i (List.mem_range.1 hi)
  unfold insideCond
  rw [hobj]
  refine ⟨?_, ?_, ?_, ?_⟩ <;> simp [mkObject] <;> linarith

/-- The first child of a node at the origin keeps all six coincident
bodies, whatever the fuel: the subdivision never returns. -/
theorem subdivide_coincident_none :
    ∀ (fuel : ℕ) (w h : ℝ), 0 < w → 0 < h →
      recursive_subdivide store6 QUADTREE_K fuel (0, 0) (w, h)
        (List.range 6) = none := by
  intro fuel
  induction fuel with
  | zero =>
      intro w h hw hh
      rw [recursive_subdivide]
      simp [QUADTREE_K]
  | succ f ih =>
      intro w h hw hh
      rw [recursive_subdivide]
      rw [if_neg (by simp [QUADTREE_K])]
      have hall : inside store6 (0, 0) (w, h) (List.range 6) = List.range 6 := by
        apply inside_all
        apply store6_cond <;> simp <;> linarith
      show (do
        let t1 ← recursive_subdivide store6 QUADTREE_K f (0, 0) (w / 2, h / 2)
          (inside store6 (0, 0) (w, h) (List.range 6))
        let t2 ← recursive_subdivide store6 QUADTREE_K f (0 + w / 2, 0) (w / 2, h / 2)
          (inside store6 (0 + w / 2, 0) (w / 2, h / 2) (List.range 6))
        let t3 ← recursive_subdivide store6 QUADTREE_K f (0, 0 + h / 2) (w / 2, h / 2)
          (inside store6 (0, 0 + h / 2) (w / 2, h / 2) (List.range 6))
        let t4 ← recursive_subdivide store6 QUADTREE_K f (0 + w / 2, 0 + h / 2) (w / 2, h / 2)
          (inside store6 (0 + w / 2, 0 + h / 2) (w / 2, h / 2) (List.range 6))
        pure (QTree.node (0, 0) (w, h) t1 t2 t3 t4) : Option QTree) = none
      rw [hall, ih (w / 2) (h / 2) (by linarith) (by linarith)]
      rfl

/-- C3: the code has no `maxDepth` bound at all.  On six exactly
coincident bodies (one more than the leaf capacity `QUADTREE_K = 5`) the
subdivision recursion never returns, whatever recursion budget it is
given, so `recursive_subdivide` — and with it the whole detection phase —
fails to terminate on degenerate clusters; in Python this surfaces as an
unbounded recursion (`RecursionError`). -/
theorem C3_no_depth_bound (fuel : ℕ) :
    recursive_subdivide store6 QUADTREE_K fuel (0, 0) (800, 800)
        (List.range 6) = none ∧
      find_collisions fuel (mkSpace store6 (800, 800)) = none := by
  have h1 := subdivide_coincident_none fuel 800 800 (by norm_num) (by norm_num)
  refine ⟨h1, ?_⟩
  unfold find_collisions
  rw [show (mkSpace store6 (800, 800)).objects = store6 from rfl]
  rw [show (mkSpace store6 (800, 800)).dim = ((800 : ℝ), (800 : ℝ)) from rfl]
  rw [show store6.length = 6 from by simp [store6]]
  rw [h1]
  rfl

/-! ### C6: the concrete two-body scenario -/

/-- First body of the spec's concrete scenario: radius 10, mass 10,
position (0,0), velocity (5,0). -/
def objA : Object := mkObject (0, 0) 10 (5, 0) 10 c0

/-- Second body of the spec's concrete scenario: radius 10, mass 20,
position (18,0), velocity (-5,0). -/
def objB : Object := mkObject (18, 0) 10 (-5, 0) 20 c0

/-- The first body after one resolution of the pair. -/
def objA2 : Object := mkObject (-1, 0) 10 (-25 / 3, 0) 10 c0

/-- The second body after one resolution of the pair. -/
def objB2 : Object := mkObject (19, 0) 10 (5 / 3, 0) 20 c0

/-- C6 counterexample: in the spec's concrete scenario the resolved
x-velocity of the first body is `((10-20)*5 + 2*20*(-5))/30 = -25/3`, not
`-10` as the claim states. -/
theorem C6_counterexample :
    (resolve_pair objA objB).map (fun p => p.1.vel.1) = some (-25 / 3) ∧
      (-25 / 3 : ℝ) ≠ -10 := by
  have h18 : Real.sqrt 324 = 18 := sqrt_eval (by norm_num) (by norm_num)
  constructor
  · unfold resolve_pair rotVec unrotVec Object.dist objA objB mkObject
    norm_num [h18]
  · norm_num

/-- C6 amended: resolving the spec's concrete pair once separates the
bodies to exact distance 20 along the x-axis and yields
`vf_a.x = ((10-20)*5 + 2*20*(-5))/30 = -25/3` and
`vf_b.x = ((20-10)*(-5) + 2*10*5)/30 = 5/3` (the claim's own formulas;
its stated value `-10` for the first is an arithmetic slip). -/
theorem C6_amended :
    resolve_pair objA objB = some (objA2, objB2) ∧
      objA2.dist objB2 = 20 ∧ objA2.pos.2 = 0 ∧ objB2.pos.2 = 0 := by
  have h18 : Real.sqrt 324 = 18 := sqrt_eval (by norm_num) (by norm_num)
  have h20 : Real.sqrt 400 = 20 := sqrt_eval (by norm_num) (by norm_num)
  refine ⟨?_, ?_, rfl, rfl⟩
  · unfold resolve_pair rotVec unrotVec Object.dist objA objB objA2 objB2 mkObject
    norm_num [h18]
  · unfold Object.dist objA2 objB2 mkObject
    norm_num [h20]

/-! ### C4: coincident centers are not guarded -/

/-- A body at (100,100); two copies give a zero-distance pair. -/
def coincA : Object := mkObject (100, 100) 10 (0, 0) 10 c0

/-- A space holding two exactly coincident bodies. -/
def coincSpace : Space := mkSpace [coincA, coincA] (800, 800)

/-- C4: at exactly coincident centers the source substitutes no fallback
axis: the difference norm is zero and `diff / norm` is numpy division by
zero (NaN poisoning, modelled `none`), and the whole tick aborts rather
than completing — `update` is not total on well-formed body collections
(`C3_no_depth_bound` further shows `update` dies by unbounded recursion on
coincident clusters above the leaf capacity). -/
theorem C4_no_zero_distance_guard :
    resolve_pair coincA coincA = none ∧ update 1 coincSpace = none := by
  have hres : resolve_pair coincA coincA = none := by
    unfold resolve_pair coincA mkObject
    norm_num
  refine ⟨hres, ?_⟩
  have hmove : move_objects coincSpace = coincSpace := by
    unfold move_objects coincSpace mkSpace moveObject coincA mkObject
    norm_num
  have ho0 : objAt [coincA, coincA] 0 = coincA := rfl
  have ho1 : objAt [coincA, coincA] 1 = coincA := rfl
  have hr : List.range 2 = [0, 1] := by decide
  have htree : recursive_subdivide [coincA, coincA] QUADTREE_K 1 (0, 0) (800, 800)
      (List.range 2) = some (.leaf (0, 0) (800, 800) [0, 1]) := by
    rw [hr, recursive_subdivide]
    norm_num [QUADTREE_K]
  have hfc : find_collisions 1 coincSpace = some ⟨[coincA, coincA], (800, 800), [(0, 1)]⟩ := by
    unfold find_collisions
    rw [show coincSpace.objects = [coincA, coincA] from rfl,
      show coincSpace.dim = ((800 : ℝ), 800) from rfl,
      show ([coincA, coincA] : List Object).length = 2 from rfl, htree]
    rw [show coincSpace.collisions = ([] : List (ℕ × ℕ)) from rfl]
    have hsz : coincA.size = 10 := rfl
    have hp : coincA.pos = (100, 100) := rfl
    norm_num [traverse, scanOuter, scanInner, ho0, ho1, collides_iff_sq, collMem,
      collEq, hsz, hp, coincSpace, mkSpace]
  have hrescol : resolve_collision [coincA, coincA] ((0, 1) : ℕ × ℕ) = none := by
    unfold resolve_collision
    rw [show objAt [coincA, coincA] (((0, 1) : ℕ × ℕ)).1 = coincA from rfl,
      show objAt [coincA, coincA] (((0, 1) : ℕ × ℕ)).2 = coincA from rfl, hres]
    rfl
  have hloop : handleLoop [coincA, coincA] [(0, 1)] 0 = none := by
    rw [handleLoop]
    rw [dif_pos (by norm_num)]
    rw [show (([(0, 1)] : List (ℕ × ℕ)).getD 0 (0, 0)) = ((0, 1) : ℕ × ℕ) from rfl]
    rw [hrescol]
  show handle_collisions 1 (move_objects coincSpace) = none
  rw [hmove]
  unfold handle_collisions
  rw [hfc]
  show (handleLoop [coincA, coincA] [(0, 1)] 0).map _ = none
  rw [hloop]
  rfl

/-! ### C5: containment fails after resolution -/

/-- Stationary body resting exactly on the left wall. -/
def oC5a : Object := mkObject (10, 100) 10 (0, 0) 10 c0

/-- Stationary body overlapping the first (distance 14 < 20). -/
def oC5b : Object := mkObject (24, 100) 10 (0, 0) 10 c0

/-- The wall body after one tick: pushed to x = 7, inside the wall. -/
def oC5a2 : Object := mkObject (7, 100) 10 (0, 0) 10 c0

/-- The other body after one tick. -/
def oC5b2 : Object := mkObject (27, 100) 10 (0, 0) 10 c0

/-- Two overlapping stationary bodies next to the left wall. -/
def spaceC5 : Space := mkSpace [oC5a, oC5b] (800, 800)

/-- The space after one full tick. -/
def spaceC5' : Space := mkSpace [oC5a2, oC5b2] (800, 800)

/-- C5 counterexample: one full tick (`update`) on two overlapping
stationary bodies beside the left wall ends with the first body at
x = 7 < 10 = radius: the boundary clamp runs before resolution, and the
positional separation of `handle_collisions` pushes the body back out of
bounds, so containment does not hold after every tick. -/
theorem C5_counterexample :
    update 1 spaceC5 = some spaceC5' ∧
      (objAt spaceC5'.objects 0).size = 10 ∧
      (objAt spaceC5'.objects 0).pos.1 = 7 ∧
      ¬ (objAt spaceC5'.objects 0).size ≤ (objAt spaceC5'.objects 0).pos.1 := by
  have h14 : Real.sqrt 196 = 14 := sqrt_eval (by norm_num) (by norm_num)
  have hres : resolve_pair oC5a oC5b = some (oC5a2, oC5b2) := by
    unfold resolve_pair rotVec unrotVec Object.dist oC5a oC5b oC5a2 oC5b2 mkObject
    norm_num [h14]
  have hmove : move_objects spaceC5 = spaceC5 := by
    unfold move_objects spaceC5 mkSpace moveObject oC5a oC5b mkObject
    norm_num
  have ho0 : objAt [oC5a, oC5b] 0 = oC5a := rfl
  have ho1 : objAt [oC5a, oC5b] 1 = oC5b := rfl
  have hr : List.range 2 = [0, 1] := by decide
  have htree : recursive_subdivide [oC5a, oC5b] QUADTREE_K 1 (0, 0) (800, 800)
      (List.range 2) = some (.leaf (0, 0) (800, 800) [0, 1]) := by
    rw [hr, recursive_subdivide]
    norm_num [QUADTREE_K]
  have hfc : find_collisions 1 spaceC5 = some ⟨[oC5a, oC5b], (800, 800), [(0, 1)]⟩ := by
    unfold find_collisions
    rw [show spaceC5.objects = [oC5a, oC5b] from rfl,
      show spaceC5.dim = ((800 : ℝ), 800) from rfl,
      show ([oC5a, oC5b] : List Object).length = 2 from rfl, htree]
    rw [show spaceC5.collisions = ([] : List (ℕ × ℕ)) from rfl]
    have hsa : oC5a.size = 10 := rfl
    have hsb : oC5b.size = 10 := rfl
    have hpa : oC5a.pos = (10, 100) := rfl
    have hpb : oC5b.pos = (24, 100) := rfl
    norm_num [traverse, scanOuter, scanInner, ho0, ho1, collides_iff_sq, collMem,
      collEq, hsa, hsb, hpa, hpb, spaceC5, mkSpace]
  have hrescol : resolve_collision [oC5a, oC5b] ((0, 1) : ℕ × ℕ) = some [oC5a2, oC5b2] := by
    unfold resolve_collision
    rw [show objAt [oC5a, oC5b] (((0, 1) : ℕ × ℕ)).1 = oC5a from rfl,
      show objAt [oC5a, oC5b] (((0, 1) : ℕ × ℕ)).2 = oC5b from rfl, hres]
    rfl
  have hrm : removeFirst (0, 1) [(0, 1)] = [] := by
    rw [removeFirst, if_pos]
    exact Or.inl ⟨rfl, rfl⟩
  have hloop : handleLoop [oC5a, oC5b] [(0, 1)] 0 = some ([oC5a2, oC5b2], []) := by
    rw [handleLoop]
    rw [dif_pos (by norm_num)]
    rw [show (([(0, 1)] : List (ℕ × ℕ)).getD 0 (0, 0)) = ((0, 1) : ℕ × ℕ) from rfl]
    rw [hrescol, hrm]
    show handleLoop [oC5a2, oC5b2] [] (0 + 1) = some ([oC5a2, oC5b2], [])
    rw [handleLoop]
    norm_num
  refine ⟨?_, rfl, rfl, by norm_num [objAt, spaceC5', mkSpace, oC5a2, mkObject, List.getD]⟩
  show handle_collisions 1 (move_objects spaceC5) = some spaceC5'
  rw [hmove]
  unfold handle_collisions
  rw [hfc]
  show (handleLoop [oC5a, oC5b] [(0, 1)] 0).map _ = some spaceC5'
  rw [hloop]
  rfl

/-- C5 amended: containment does hold right after the integrate-and-clamp
phase (`move_objects`): every body whose radius is nonnegative and fits in
the bounds ends the move phase with
`radius ≤ position ≤ bounds − radius` on both axes.  (The subsequent
resolution phase may displace bodies out of bounds again, as
`C5_counterexample` shows.) -/
theorem C5_amended (s : Space)
    (hwf : ∀ o ∈ s.objects,
      0 ≤ o.size ∧ 2 * o.size ≤ s.dim.1 ∧ 2 * o.size ≤ s.dim.2) :
    ∀ o2 ∈ (move_objects s).objects,
      o2.size ≤ o2.pos.1 ∧ o2.pos.1 ≤ s.dim.1 - o2.size ∧
        o2.size ≤ o2.pos.2 ∧ o2.pos.2 ≤ s.dim.2 - o2.size := by
  intro o2 hmem
  simp only [move_objects] at hmem
  obtain ⟨o, ho, rfl⟩ := List.mem_map.1 hmem
  obtain ⟨h0, h1, h2⟩ := hwf o ho
  simp only [moveObject]
  split_ifs <;> refine ⟨?_, ?_, ?_, ?_⟩ <;> (try dsimp only at *) <;> linarith

/-- One in-bounds moving body, for the witness of `C5_amended`. -/
def spaceW5 : Space := mkSpace [mkObject (100, 100) 10 (2, 3) 10 c0] (800, 800)

/-- Witness for `C5_amended` at a concrete one-body space. -/
theorem C5_amended_witness :
    (∀ o ∈ spaceW5.objects,
        0 ≤ o.size ∧ 2 * o.size ≤ spaceW5.dim.1 ∧ 2 * o.size ≤ spaceW5.dim.2) ∧
      ∀ o2 ∈ (move_objects spaceW5).objects,
        o2.size ≤ o2.pos.1 ∧ o2.pos.1 ≤ spaceW5.dim.1 - o2.size ∧
          o2.size ≤ o2.pos.2 ∧ o2.pos.2 ≤ spaceW5.dim.2 - o2.size := by
  have hwf : ∀ o ∈ spaceW5.objects,
      0 ≤ o.size ∧ 2 * o.size ≤ spaceW5.dim.1 ∧ 2 * o.size ≤ spaceW5.dim.2 := by
    intro o ho
    simp only [spaceW5, mkSpace, List.mem_singleton] at ho
    subst ho
    norm_num [mkObject, spaceW5, mkSpace]
  exact ⟨hwf, C5_amended spaceW5 hwf⟩

/-! ### C8: the 1D exchange conserves momentum in the rotated frame -/

/-- C8: for any resolved pair with positive masses, the 1D exchange step
preserves `a.mass * va.x + b.mass * vb.x` in the rotated frame, leaves
both rotated y-components unchanged, and in the equal-mass case the two
bodies exactly swap their along-axis (rotated x) velocity components. -/
theorem C8_momentum_y_swap (a b a2 b2 : Object)
    (hma : 0 < a.mass) (hmb : 0 < b.mass)
    (h : resolve_pair a b = some (a2, b2)) :
    a.mass * (rotVec (b.pos.1 - a.pos.1, b.pos.2 - a.pos.2) a2.vel).1 +
        b.mass * (rotVec (b.pos.1 - a.pos.1, b.pos.2 - a.pos.2) b2.vel).1 =
      a.mass * (rotVec (b.pos.1 - a.pos.1, b.pos.2 - a.pos.2) a.vel).1 +
        b.mass * (rotVec (b.pos.1 - a.pos.1, b.pos.2 - a.pos.2) b.vel).1 ∧
      (rotVec (b.pos.1 - a.pos.1, b.pos.2 - a.pos.2) a2.vel).2 =
        (rotVec (b.pos.1 - a.pos.1, b.pos.2 - a.pos.2) a.vel).2 ∧
      (rotVec (b.pos.1 - a.pos.1, b.pos.2 - a.pos.2) b2.vel).2 =
        (rotVec (b.pos.1 - a.pos.1, b.pos.2 - a.pos.2) b.vel).2 ∧
      (a.mass = b.mass →
        (rotVec (b.pos.1 - a.pos.1, b.pos.2 - a.pos.2) a2.vel).1 =
            (rotVec (b.pos.1 - a.pos.1, b.pos.2 - a.pos.2) b.vel).1 ∧
          (rotVec (b.pos.1 - a.pos.1, b.pos.2 - a.pos.2) b2.vel).1 =
            (rotVec (b.pos.1 - a.pos.1, b.pos.2 - a.pos.2) a.vel).1) := by
  have hm : a.mass + b.mass ≠ 0 := by positivity
  simp only [resolve_pair] at h
  by_cases hn : Real.sqrt ((b.pos.1 - a.pos.1) ^ 2 + (b.pos.2 - a.pos.2) ^ 2) = 0
  · rw [if_pos hn] at h
    cases h
  · rw [if_neg hn] at h
    rw [Option.some.injEq, Prod.mk.injEq] at h
    obtain ⟨ha2, hb2⟩ := h
    subst ha2
    subst hb2
    have hkey : ∀ w, rotVec (b.pos.1 - a.pos.1, b.pos.2 - a.pos.2)
        (unrotVec (b.pos.1 - a.pos.1, b.pos.2 - a.pos.2) w) = w :=
      rotVec_unrotVec (b.pos.1 - a.pos.1, b.pos.2 - a.pos.2) hn
    refine ⟨?_, ?_, ?_, fun heq => ⟨?_, ?_⟩⟩ <;>
      dsimp only <;>
      simp only [hkey]
    · field_simp
      ring
    · rw [heq]
      rw [sub_self, zero_mul, zero_add]
      have hb2 : b.mass + b.mass ≠ 0 := by positivity
      field_simp [hb2]
      ring
    · rw [heq]
      rw [sub_self, zero_mul, zero_add]
      have hb2 : b.mass + b.mass ≠ 0 := by positivity
      field_simp [hb2]
      ring

/-- First body for the C8 witness: radius 3, mass 2, moving along x. -/
def w8A : Object := mkObject (0, 0) 3 (1, 0) 2 c0

/-- Second body for the C8 witness: at oblique offset (3,4), at rest. -/
def w8B : Object := mkObject (3, 4) 3 (0, 0) 2 c0

/-- The first body after resolving the witness pair. -/
def w8A2 : Object := mkObject (-3 / 10, -2 / 5) 3 (16 / 25, -12 / 25) 2 c0

/-- The second body after resolving the witness pair. -/
def w8B2 : Object := mkObject (33 / 10, 22 / 5) 3 (9 / 25, 12 / 25) 2 c0

/-- Witness for `C8_momentum_y_swap` at a concrete oblique equal-mass
pair. -/
theorem C8_witness :
    ((0 : ℝ) < w8A.mass ∧ (0 : ℝ) < w8B.mass ∧
        resolve_pair w8A w8B = some (w8A2, w8B2)) ∧
      (w8A.mass * (rotVec (w8B.pos.1 - w8A.pos.1, w8B.pos.2 - w8A.pos.2) w8A2.vel).1 +
          w8B.mass * (rotVec (w8B.pos.1 - w8A.pos.1, w8B.pos.2 - w8A.pos.2) w8B2.vel).1 =
        w8A.mass * (rotVec (w8B.pos.1 - w8A.pos.1, w8B.pos.2 - w8A.pos.2) w8A.vel).1 +
          w8B.mass * (rotVec (w8B.pos.1 - w8A.pos.1, w8B.pos.2 - w8A.pos.2) w8B.vel).1 ∧
        (rotVec (w8B.pos.1 - w8A.pos.1, w8B.pos.2 - w8A.pos.2) w8A2.vel).2 =
          (rotVec (w8B.pos.1 - w8A.pos.1, w8B.pos.2 - w8A.pos.2) w8A.vel).2 ∧
        (rotVec (w8B.pos.1 - w8A.pos.1, w8B.pos.2 - w8A.pos.2) w8B2.vel).2 =
          (rotVec (w8B.pos.1 - w8A.pos.1, w8B.pos.2 - w8A.pos.2) w8B.vel).2 ∧
        (w8A.mass = w8B.mass →
          (rotVec (w8B.pos.1 - w8A.pos.1, w8B.pos.2 - w8A.pos.2) w8A2.vel).1 =
              (rotVec (w8B.pos.1 - w8A.pos.1, w8B.pos.2 - w8A.pos.2) w8B.vel).1 ∧
            (rotVec (w8B.pos.1 - w8A.pos.1, w8B.pos.2 - w8A.pos.2) w8B2.vel).1 =
              (rotVec (w8B.pos.1 - w8A.pos.1, w8B.pos.2 - w8A.pos.2) w8A.vel).1)) := by
  have h5 : Real.sqrt 25 = 5 := sqrt_eval (by norm_num) (by norm_num)
  have hma : (0 : ℝ) < w8A.mass := by norm_num [w8A, mkObject]
  have hmb : (0 : ℝ) < w8B.mass := by norm_num [w8B, mkObject]
  have hsome : resolve_pair w8A w8B = some (w8A2, w8B2) := by
    unfold resolve_pair rotVec unrotVec Object.dist w8A w8B w8A2 w8B2 mkObject
    norm_num [h5]
  exact ⟨⟨hma, hmb, hsome⟩, C8_momentum_y_swap w8A w8B w8A2 w8B2 hma hmb hsome⟩

/-! ### C1: the resolution loop skips pairs and leaves them pending -/

/-- First body of the first colliding pair. -/
def oC1a : Object := mkObject (100, 100) 10 (0, 0) 10 c0

/-- Second body of the first colliding pair (distance 12 < 20). -/
def oC1b : Object := mkObject (112, 100) 10 (0, 0) 10 c0

/-- First body of the second colliding pair. -/
def oC1c : Object := mkObject (300, 300) 10 (0, 0) 10 c0

/-- Second body of the second colliding pair (distance 12 < 20). -/
def oC1d : Object := mkObject (312, 300) 10 (0, 0) 10 c0

/-- The first pair's first body after resolution. -/
def oC1a2 : Object := mkObject (96, 100) 10 (0, 0) 10 c0

/-- The first pair's second body after resolution. -/
def oC1b2 : Object := mkObject (116, 100) 10 (0, 0) 10 c0

/-- A space with two disjoint colliding pairs. -/
def spaceC1 : Space := mkSpace [oC1a, oC1b, oC1c, oC1d] (800, 800)

/-- The space after one tick: only the first pair was resolved, and the
second pair is still pending. -/
def spaceC1' : Space := ⟨[oC1a2, oC1b2, oC1c, oC1d], (800, 800), [(2, 3)]⟩

set_option maxHeartbeats 2000000 in
/-- C1: with two detected pairs, the loop of `handle_collisions` resolves
only the first: removing the processed pair while the list iterator
advances shifts the second pair into the already-visited position, so it is
skipped, keeps its unresolved (still overlapping) bodies, and survives in
the pending set into later ticks — after the tick the pending set is
`[(2,3)]`, not empty. -/
theorem C1_loop_skips_pending :
    update 1 spaceC1 = some spaceC1' ∧
      spaceC1'.collisions = [(2, 3)] ∧
      objAt spaceC1'.objects 2 = objAt spaceC1.objects 2 ∧
      objAt spaceC1'.objects 3 = objAt spaceC1.objects 3 ∧
      (objAt spaceC1'.objects 2).collides (objAt spaceC1'.objects 3) := by
  have h12 : Real.sqrt 144 = 12 := sqrt_eval (by norm_num) (by norm_num)
  have hres : resolve_pair oC1a oC1b = some (oC1a2, oC1b2) := by
    unfold resolve_pair rotVec unrotVec Object.dist oC1a oC1b oC1a2 oC1b2 mkObject
    norm_num [h12]
  have hmove : move_objects spaceC1 = spaceC1 := by
    unfold move_objects spaceC1 mkSpace moveObject oC1a oC1b oC1c oC1d mkObject
    norm_num
  have ho0 : objAt [oC1a, oC1b, oC1c, oC1d] 0 = oC1a := rfl
  have ho1 : objAt [oC1a, oC1b, oC1c, oC1d] 1 = oC1b := rfl
  have ho2 : objAt [oC1a, oC1b, oC1c, oC1d] 2 = oC1c := rfl
  have ho3 : objAt [oC1a, oC1b, oC1c, oC1d] 3 = oC1d := rfl
  have hr : List.range 4 = [0, 1, 2, 3] := by decide
  have htree : recursive_subdivide [oC1a, oC1b, oC1c, oC1d] QUADTREE_K 1 (0, 0)
      (800, 800) (List.range 4) = some (.leaf (0, 0) (800, 800) [0, 1, 2, 3]) := by
    rw [hr, recursive_subdivide]
    norm_num [QUADTREE_K]
  have hfc : find_collisions 1 spaceC1 =
      some ⟨[oC1a, oC1b, oC1c, oC1d], (800, 800), [(0, 1), (2, 3)]⟩ := by
    unfold find_collisions
    rw [show spaceC1.objects = [oC1a, oC1b, oC1c, oC1d] from rfl,
      show spaceC1.dim = ((800 : ℝ), 800) from rfl,
      show ([oC1a, oC1b, oC1c, oC1d] : List Object).length = 4 from rfl, htree]
    rw [show spaceC1.collisions = ([] : List (ℕ × ℕ)) from rfl]
    have hpa : oC1a.pos = (100, 100) := rfl
    have hpb : oC1b.pos = (112, 100) := rfl
    have hpc : oC1c.pos = (300, 300) := rfl
    have hpd : oC1d.pos = (312, 300) := rfl
    have hsa : oC1a.size = 10 := rfl
    have hsb : oC1b.size = 10 := rfl
    have hsc : oC1c.size = 10 := rfl
    have hsd : oC1d.size = 10 := rfl
    norm_num [traverse, scanOuter, scanInner, ho0, ho1, ho2, ho3, collides_iff_sq,
      collMem, collEq, hpa, hpb, hpc, hpd, hsa, hsb, hsc, hsd, spaceC1, mkSpace]
  have hrescol : resolve_collision [oC1a, oC1b, oC1c, oC1d] ((0, 1) : ℕ × ℕ) =
      some [oC1a2, oC1b2, oC1c, oC1d] := by
    unfold resolve_collision
    rw [show objAt [oC1a, oC1b, oC1c, oC1d] (((0, 1) : ℕ × ℕ)).1 = oC1a from rfl,
      show objAt [oC1a, oC1b, oC1c, oC1d] (((0, 1) : ℕ × ℕ)).2 = oC1b from rfl, hres]
    rfl
  have hrm : removeFirst (0, 1) [(0, 1), (2, 3)] = [(2, 3)] := by
    rw [removeFirst, if_pos]
    exact Or.inl ⟨rfl, rfl⟩
  have hloop : handleLoop [oC1a, oC1b, oC1c, oC1d] [(0, 1), (2, 3)] 0 =
      some ([oC1a2, oC1b2, oC1c, oC1d], [(2, 3)]) := by
    rw [handleLoop]
    rw [dif_pos (by norm_num)]
    rw [show (([(0, 1), (2, 3)] : List (ℕ × ℕ)).getD 0 (0, 0)) = ((0, 1) : ℕ × ℕ) from rfl]
    rw [hrescol, hrm]
    show handleLoop [oC1a2, oC1b2, oC1c, oC1d] [(2, 3)] (0 + 1) =
      some ([oC1a2, oC1b2, oC1c, oC1d], [(2, 3)])
    rw [handleLoop]
    norm_num
  refine ⟨?_, rfl, rfl, rfl, ?_⟩
  · show handle_collisions 1 (move_objects spaceC1) = some spaceC1'
    rw [hmove]
    unfold handle_collisions
    rw [hfc]
    show (handleLoop [oC1a, oC1b, oC1c, oC1d] [(0, 1), (2, 3)] 0).map _ = some spaceC1'
    rw [hloop]
    rfl
  · rw [show objAt spaceC1'.objects 2 = oC1c from rfl,
      show objAt spaceC1'.objects 3 = oC1d from rfl]
    rw [collides_iff_sq]
    unfold oC1c oC1d mkObject
    norm_num

/-! ### C2: the first child is filtered with the parent rectangle -/

/-- A body overlapping the top-left 100x100 cell. -/
def oNear : Object := mkObject (30, 30) 10 (0, 0) 10 c0

/-- A body overlapping the (100,100)-(200,200) cell only. -/
def oMid : Object := mkObject (150, 150) 10 (0, 0) 10 c0

/-- A body overlapping the (200,200)-(400,400) quadrant only. -/
def oFar : Object := mkObject (300, 300) 10 (0, 0) 10 c0

/-- Six bodies: four near the origin, one at (150,150), one at (300,300). -/
def storeC2 : List Object := [oNear, oNear, oNear, oNear, oMid, oFar]

/-- The quadtree the source builds on `storeC2` from the root
(0,0)-(400,400): the leaf at (0,0) with dimensions (100,100) stores body 4
at (150,150), which does not overlap that leaf's own rectangle — it is
there because the source filters every first child with the parent's full
rectangle. -/
def treeC2 : QTree :=
  .node (0, 0) (400, 400)
    (.node (0, 0) (200, 200)
      (.leaf (0, 0) (100, 100) [0, 1, 2, 3, 4])
      (.leaf (100, 0) (100, 100) [])
      (.leaf (0, 100) (100, 100) [])
      (.leaf (100, 100) (100, 100) [4]))
    (.leaf (200, 0) (200, 200) [])
    (.leaf (0, 200) (200, 200) [])
    (.leaf (200, 200) (200, 200) [5])

set_option maxHeartbeats 2000000 in
/-- C2: the built tree has a leaf (first child of a first child) whose
point list `[0,1,2,3,4]` is not the subset of the parent's bodies
overlapping its own quadrant: body 4 fails the half-open overlap test
against the leaf's rectangle (0,0)-(100,100), and the claimed subset is
`[0,1,2,3]`.  The first child's list is filtered with the parent's full
rectangle (simulator.py:54) instead of the half-size quadrant. -/
theorem C2_first_child_filter_bug :
    recursive_subdivide storeC2 QUADTREE_K 2 (0, 0) (400, 400) (List.range 6) =
        some treeC2 ∧
      4 ∈ ([0, 1, 2, 3, 4] : List ℕ) ∧
      ¬ insideCond storeC2 (0, 0) (100, 100) 4 ∧
      inside storeC2 (0, 0) (100, 100) [0, 1, 2, 3, 4] = [0, 1, 2, 3] := by
  have hr : List.range 6 = [0, 1, 2, 3, 4, 5] := by decide
  have ho0 : objAt storeC2 0 = oNear := rfl
  have ho1 : objAt storeC2 1 = oNear := rfl
  have ho2 : objAt storeC2 2 = oNear := rfl
  have ho3 : objAt storeC2 3 = oNear := rfl
  have ho4 : objAt storeC2 4 = oMid := rfl
  have ho5 : objAt storeC2 5 = oFar := rfl
  have hpn : oNear.pos = (30, 30) := rfl
  have hpm : oMid.pos = (150, 150) := rfl
  have hpf : oFar.pos = (300, 300) := rfl
  have hsn : oNear.size = 10 := rfl
  have hsm : oMid.size = 10 := rfl
  have hsf : oFar.size = 10 := rfl
  refine ⟨?_, by decide, ?_, ?_⟩
  · rw [hr]
    norm_num [recursive_subdivide, QUADTREE_K, inside, insideCond, Option.bind,
      ho0, ho1, ho2, ho3, ho4, ho5, hpn, hpm, hpf, hsn, hsm, hsf, treeC2]
  · rw [insideCond, ho4, hpm, hsm]
    norm_num
  · norm_num [inside, insideCond, ho0, ho1, ho2, ho3, ho4, hpn, hpm, hsn, hsm]

/-! ### C10: a tick mutates only positions and velocities -/

theorem moveObject_fields (dim : ℝ × ℝ) (o : Object) :
    (moveObject dim o).size = o.size ∧ (moveObject dim o).mass = o.mass ∧
      (moveObject dim o).color = o.color := by
  simp only [moveObject]
  split_ifs <;> exact ⟨rfl, rfl, rfl⟩

theorem objAt_map (f : Object → Object) (l : List Object) (t : ℕ)
    (h : t < l.length) : objAt (l.map f) t = f (objAt l t) := by
  induction l generalizing t with
  | nil => simp at h
  | cons o rest ih =>
      cases t with
      | zero => rfl
      | succ k =>
          show objAt (rest.map f) k = f (objAt rest k)
          exact ih k (by simpa using Nat.lt_of_succ_lt_succ h)

theorem objAt_out (l : List Object) (t : ℕ) (h : l.length ≤ t) :
    objAt l t = default :=
  List.getD_eq_default l default h

theorem objAt_set_self (l : List Object) (i : ℕ) (a : Object) (h : i < l.length) :
    objAt (l.set i a) i = a := by
  induction l generalizing i with
  | nil => simp at h
  | cons o rest ih =>
      cases i with
      | zero => rfl
      | succ k =>
          show objAt (rest.set k a) k = a
          exact ih k (Nat.lt_of_succ_lt_succ h)

theorem objAt_set_ne (l : List Object) (i j : ℕ) (a : Object) (h : i ≠ j) :
    objAt (l.set i a) j = objAt l j := by
  induction l generalizing i j with
  | nil => rfl
  | cons o rest ih =>
      cases i with
      | zero =>
          cases j with
          | zero => exact absurd rfl h
          | succ k => rfl
      | succ m =>
          cases j with
          | zero => rfl
          | succ k =>
              show objAt (rest.set m a) k = objAt rest k
              exact ih m k (by omega)

theorem objAt_set_fields (l : List Object) (i : ℕ) (a : Object)
    (hsz : a.size = (objAt l i).size) (hms : a.mass = (objAt l i).mass)
    (hcl : a.color = (objAt l i).color) (t : ℕ) :
    (objAt (l.set i a) t).size = (objAt l t).size ∧
      (objAt (l.set i a) t).mass = (objAt l t).mass ∧
      (objAt (l.set i a) t).color = (objAt l t).color := by
  by_cases h : i = t
  · subst h
    by_cases hlen : i < l.length
    · rw [objAt_set_self l i a hlen]
      exact ⟨hsz, hms, hcl⟩
    · rw [List.set_eq_of_length_le (by omega)]
      exact ⟨rfl, rfl, rfl⟩
  · rw [objAt_set_ne l i t a h]
    exact ⟨rfl, rfl, rfl⟩

/-- The resolution block rewrites only `pos` and `vel`: radius, mass and
the presentation tag pass through. -/
theorem resolve_pair_fields (a b a2 b2 : Object)
    (h : resolve_pair a b = some (a2, b2)) :
    a2.size = a.size ∧ a2.mass = a.mass ∧ a2.color = a.color ∧
      b2.size = b.size ∧ b2.mass = b.mass ∧ b2.color = b.color := by
  simp only [resolve_pair] at h
  by_cases hn : Real.sqrt ((b.pos.1 - a.pos.1) ^ 2 + (b.pos.2 - a.pos.2) ^ 2) = 0
  · rw [if_pos hn] at h
    cases h
  · rw [if_neg hn] at h
    rw [Option.some.injEq, Prod.mk.injEq] at h
    obtain ⟨h1, h2⟩ := h
    subst h1
    subst h2
    exact ⟨rfl, rfl, rfl, rfl, rfl, rfl⟩

theorem resolve_collision_fields (objs objs2 : List Object) (c : ℕ × ℕ)
    (h : resolve_collision objs c = some objs2) :
    objs2.length = objs.length ∧ ∀ t,
      (objAt objs2 t).size = (objAt objs t).size ∧
      (objAt objs2 t).mass = (objAt objs t).mass ∧
      (objAt objs2 t).color = (objAt objs t).color := by
  simp only [resolve_collision, Option.map_eq_some'] at h
  obtain ⟨p, hp, heq⟩ := h
  obtain ⟨p1, p2⟩ := p
  subst heq
  have hf := resolve_pair_fields _ _ _ _ hp
  have T2 : ∀ t,
      (objAt (objs.set c.1 p1) t).size = (objAt objs t).size ∧
      (objAt (objs.set c.1 p1) t).mass = (objAt objs t).mass ∧
      (objAt (objs.set c.1 p1) t).color = (objAt objs t).color :=
    objAt_set_fields objs c.1 p1 hf.1 hf.2.1 hf.2.2.1
  have T1 : ∀ t,
      (objAt ((objs.set c.1 p1).set c.2 p2) t).size = (objAt (objs.set c.1 p1) t).size ∧
      (objAt ((objs.set c.1 p1).set c.2 p2) t).mass = (objAt (objs.set c.1 p1) t).mass ∧
      (objAt ((objs.set c.1 p1).set c.2 p2) t).color = (objAt (objs.set c.1 p1) t).color := by
    apply objAt_set_fields
    · rw [(T2 c.2).1]
      exact hf.2.2.2.1
    · rw [(T2 c.2).2.1]
      exact hf.2.2.2.2.1
    · rw [(T2 c.2).2.2]
      exact hf.2.2.2.2.2
  refine ⟨by simp [List.length_set], fun t => ?_⟩
  obtain ⟨e1, e2, e3⟩ := T1 t
  obtain ⟨g1, g2, g3⟩ := T2 t
  exact ⟨e1.trans g1, e2.trans g2, e3.trans g3⟩

theorem handleLoop_fields (objs : List Object) (cs : List (ℕ × ℕ)) (i : ℕ)
    (r : List Object × List (ℕ × ℕ)) (h : handleLoop objs cs i = some r) :
    r.1.length = objs.length ∧ ∀ t,
      (objAt r.1 t).size = (objAt objs t).size ∧
      (objAt r.1 t).mass = (objAt objs t).mass ∧
      (objAt r.1 t).color = (objAt objs t).color := by
  induction objs, cs, i using handleLoop.induct with
  | case1 objs cs i hlt hres =>
      rw [handleLoop, dif_pos hlt, hres] at h
      cases h
  | case2 objs cs i hlt objs2 hres ih =>
      rw [handleLoop, dif_pos hlt, hres] at h
      have hr := ih h
      have hc := resolve_collision_fields objs objs2 _ hres
      refine ⟨hr.1.trans hc.1, fun t => ?_⟩
      obtain ⟨e1, e2, e3⟩ := hr.2 t
      obtain ⟨g1, g2, g3⟩ := hc.2 t
      exact ⟨e1.trans g1, e2.trans g2, e3.trans g3⟩
  | case3 objs cs i hlt =>
      rw [handleLoop, dif_neg hlt] at h
      cases h
      exact ⟨rfl, fun t => ⟨rfl, rfl, rfl⟩⟩

/-- C10: one tick (`update`) changes only positions and velocities —
radius, mass and the presentation tag of every body are unchanged, the
body count is unchanged, and detection alone (`find_collisions`) leaves
every body field and the bounds untouched. -/
theorem C10_update_mutates_only_pos_vel (fuel : ℕ) (s s2 s3 : Space)
    (hu : update fuel s = some s2) (hf : find_collisions fuel s = some s3) :
    s2.objects.length = s.objects.length ∧
      (∀ t, (objAt s2.objects t).size = (objAt s.objects t).size ∧
        (objAt s2.objects t).mass = (objAt s.objects t).mass ∧
        (objAt s2.objects t).color = (objAt s.objects t).color) ∧
      s3.objects = s.objects ∧ s3.dim = s.dim := by
  have hf3 : s3.objects = s.objects ∧ s3.dim = s.dim := by
    simp only [find_collisions, Option.map_eq_some'] at hf
    obtain ⟨t, _, heq⟩ := hf
    subst heq
    exact ⟨rfl, rfl⟩
  simp only [update, handle_collisions, Option.bind_eq_some'] at hu
  obtain ⟨s1, hfc1, hmap⟩ := hu
  simp only [Option.map_eq_some'] at hmap
  obtain ⟨r, hloop, heq⟩ := hmap
  subst heq
  have hs1 : s1.objects = (move_objects s).objects := by
    simp only [find_collisions, Option.map_eq_some'] at hfc1
    obtain ⟨t, _, heq1⟩ := hfc1
    subst heq1
    rfl
  have hmv : ∀ t,
      (objAt (move_objects s).objects t).size = (objAt s.objects t).size ∧
      (objAt (move_objects s).objects t).mass = (objAt s.objects t).mass ∧
      (objAt (move_objects s).objects t).color = (objAt s.objects t).color := by
    intro t
    simp only [move_objects]
    by_cases ht : t < s.objects.length
    · rw [objAt_map _ _ _ ht]
      exact moveObject_fields s.dim (objAt s.objects t)
    · rw [objAt_out _ t (by simpa using Nat.le_of_not_lt ht),
        objAt_out s.objects t (Nat.le_of_not_lt ht)]
      exact ⟨rfl, rfl, rfl⟩
  have hlp := handleLoop_fields s1.objects s1.collisions 0 r hloop
  have hmlen : (move_objects s).objects.length = s.objects.length := by
    simp [move_objects]
  refine ⟨?_, fun t => ?_, hf3.1, hf3.2⟩
  · show r.1.length = s.objects.length
    rw [hlp.1, hs1, hmlen]
  · show (objAt r.1 t).size = _ ∧ (objAt r.1 t).mass = _ ∧ (objAt r.1 t).color = _
    obtain ⟨e1, e2, e3⟩ := hlp.2 t
    rw [hs1] at e1 e2 e3
    obtain ⟨g1, g2, g3⟩ := hmv t
    exact ⟨e1.trans g1, e2.trans g2, e3.trans g3⟩

/-- One moving body, for the C10 witness. -/
def spaceW10 : Space := mkSpace [mkObject (100, 100) 10 (3, 4) 10 (1, 2, 3)] (800, 800)

/-- The C10 witness space after one tick. -/
def spaceW10' : Space := mkSpace [mkObject (103, 104) 10 (3, 4) 10 (1, 2, 3)] (800, 800)

/-- Witness for `C10_update_mutates_only_pos_vel` on a one-body space. -/
theorem C10_witness :
    (update 1 spaceW10 = some spaceW10' ∧
        find_collisions 1 spaceW10 = some spaceW10) ∧
      (spaceW10'.objects.length = spaceW10.objects.length ∧
        (∀ t, (objAt spaceW10'.objects t).size = (objAt spaceW10.objects t).size ∧
          (objAt spaceW10'.objects t).mass = (objAt spaceW10.objects t).mass ∧
          (objAt spaceW10'.objects t).color = (objAt spaceW10.objects t).color) ∧
        spaceW10.objects = spaceW10.objects ∧ spaceW10.dim = spaceW10.dim) := by
  have hr : List.range 1 = [0] := by decide
  have htree : ∀ os : List Object, os.length = 1 →
      recursive_subdivide os QUADTREE_K 1 (0, 0) (800, 800) (List.range 1) =
        some (.leaf (0, 0) (800, 800) [0]) := by
    intro os hos
    rw [hr, recursive_subdivide]
    norm_num [QUADTREE_K]
  have hscan : ∀ os : List Object, traverse os (.leaf (0, 0) (800, 800) [0]) [] = [] := by
    intro os
    norm_num [traverse, scanOuter, scanInner]
  have hfc : ∀ sp : Space, sp.dim = (800, 800) → sp.collisions = [] →
      sp.objects.length = 1 → find_collisions 1 sp = some sp := by
    intro sp hdim hcol hlen
    unfold find_collisions
    rw [hdim, hlen, htree sp.objects hlen, Option.map_some']
    rw [hcol, hscan]
    congr 1
    cases sp
    simp_all
  have hu : update 1 spaceW10 = some spaceW10' := by
    have hmove : move_objects spaceW10 = spaceW10' := by
      unfold move_objects spaceW10 spaceW10' mkSpace moveObject mkObject
      norm_num
    show handle_collisions 1 (move_objects spaceW10) = some spaceW10'
    rw [hmove]
    unfold handle_collisions
    rw [hfc spaceW10' rfl rfl rfl]
    show (handleLoop spaceW10'.objects spaceW10'.collisions 0).map _ = some spaceW10'
    rw [show spaceW10'.collisions = ([] : List (ℕ × ℕ)) from rfl, handleLoop]
    norm_num
    rfl
  have hf : find_collisions 1 spaceW10 = some spaceW10 := hfc spaceW10 rfl rfl rfl
  exact ⟨⟨hu, hf⟩,
    C10_update_mutates_only_pos_vel 1 spaceW10 spaceW10' spaceW10 hu hf⟩

/-! ### C9: geometry of the built tree -/

/-- Rectangle 1 lies inside rectangle 2 (componentwise). -/
def subRect (p1 s1 p2 s2 : ℝ × ℝ) : Prop :=
  p2.1 ≤ p1.1 ∧ p1.1 + s1.1 ≤ p2.1 + s2.1 ∧ p2.2 ≤ p1.2 ∧ p1.2 + s1.2 ≤ p2.2 + s2.2

/-- A point lies in the half-open rectangle, matching the half-open side
of the `inside` test. -/
def inRegion (pos size : ℝ × ℝ) (q : ℝ × ℝ) : Prop :=
  pos.1 ≤ q.1 ∧ q.1 < pos.1 + size.1 ∧ pos.2 ≤ q.2 ∧ q.2 < pos.2 + size.2

theorem subRect_trans (p1 s1 p2 s2 p3 s3 : ℝ × ℝ)
    (h12 : subRect p1 s1 p2 s2) (h23 : subRect p2 s2 p3 s3) :
    subRect p1 s1 p3 s3 := by
  obtain ⟨a1, a2, a3, a4⟩ := h12
  obtain ⟨b1, b2, b3, b4⟩ := h23
  exact ⟨by linarith, by linarith, by linarith, by linarith⟩

/-- The overlap test is monotone in the rectangle. -/
theorem insideCond_mono (store : List Object) (p1 s1 p2 s2 : ℝ × ℝ) (i : ℕ)
    (hsub : subRect p1 s1 p2 s2) (h : insideCond store p1 s1 i) :
    insideCond store p2 s2 i := by
  obtain ⟨a1, a2, a3, a4⟩ := hsub
  obtain ⟨b1, b2, b3, b4⟩ := h
  exact ⟨by linarith, by linarith, by linarith, by linarith⟩

/-- A body whose bounding square contains a point of a rectangle passes
that rectangle's overlap test. -/
theorem insideCond_of_point (store : List Object) (pos size : ℝ × ℝ) (i : ℕ)
    (q : ℝ × ℝ) (hq : inRegion pos size q)
    (h1 : (objAt store i).pos.1 - (objAt store i).size ≤ q.1)
    (h2 : q.1 ≤ (objAt store i).pos.1 + (objAt store i).size)
    (h3 : (objAt store i).pos.2 - (objAt store i).size ≤ q.2)
    (h4 : q.2 ≤ (objAt store i).pos.2 + (objAt store i).size) :
    insideCond store pos size i := by
  obtain ⟨r1, r2, r3, r4⟩ := hq
  exact ⟨by linarith, by linarith, by linarith, by linarith⟩

/-- The leaf with the given rectangle and point list occurs in the tree. -/
inductive LeafIn : QTree → (ℝ × ℝ) → (ℝ × ℝ) → List ℕ → Prop where
  | self (pos size : ℝ × ℝ) (pts : List ℕ) : LeafIn (.leaf pos size pts) pos size pts
  | c1 {t1 t2 t3 t4 : QTree} {np ns p s : ℝ × ℝ} {l : List ℕ} :
      LeafIn t1 p s l → LeafIn (.node np ns t1 t2 t3 t4) p s l
  | c2 {t1 t2 t3 t4 : QTree} {np ns p s : ℝ × ℝ} {l : List ℕ} :
      LeafIn t2 p s l → LeafIn (.node np ns t1 t2 t3 t4) p s l
  | c3 {t1 t2 t3 t4 : QTree} {np ns p s : ℝ × ℝ} {l : List ℕ} :
      LeafIn t3 p s l → LeafIn (.node np ns t1 t2 t3 t4) p s l
  | c4 {t1 t2 t3 t4 : QTree} {np ns p s : ℝ × ℝ} {l : List ℕ} :
      LeafIn t4 p s l → LeafIn (.node np ns t1 t2 t3 t4) p s l

theorem subdivide_leaf_eq (store : List Object) (k fuel : ℕ) (pos size : ℝ × ℝ)
    (pts : List ℕ) (hlen : pts.length ≤ k) :
    recursive_subdivide store k fuel pos size pts = some (.leaf pos size pts) := by
  cases fuel with
  | zero => rw [recursive_subdivide, if_pos hlen]
  | succ f => rw [recursive_subdivide, if_pos hlen]

theorem subdivide_zero_eq (store : List Object) (k : ℕ) (pos size : ℝ × ℝ)
    (pts : List ℕ) (hlen : ¬ pts.length ≤ k) :
    recursive_subdivide store k 0 pos size pts = none := by
  rw [recursive_subdivide.eq_def]
  dsimp only
  rw [if_neg hlen]

theorem bind4_eq_some {o1 o2 o3 o4 : Option QTree}
    {g : QTree → QTree → QTree → QTree → QTree} {t : QTree}
    (h : (do
        let t1 ← o1
        let t2 ← o2
        let t3 ← o3
        let t4 ← o4
        pure (g t1 t2 t3 t4) : Option QTree) = some t) :
    ∃ t1 t2 t3 t4, o1 = some t1 ∧ o2 = some t2 ∧ o3 = some t3 ∧
      o4 = some t4 ∧ g t1 t2 t3 t4 = t := by
  cases o1 with
  | none => exact Option.noConfusion h
  | some t1 =>
      cases o2 with
      | none => exact Option.noConfusion h
      | some t2 =>
          cases o3 with
          | none => exact Option.noConfusion h
          | some t3 =>
              cases o4 with
              | none => exact Option.noConfusion h
              | some t4 =>
                  exact ⟨t1, t2, t3, t4, rfl, rfl, rfl, rfl, Option.some.inj h⟩

theorem subdivide_succ_eq (store : List Object) (k f : ℕ) (pos size : ℝ × ℝ)
    (pts : List ℕ) (hlen : ¬ pts.length ≤ k) :
    recursive_subdivide store k (f + 1) pos size pts =
      (do
        let t1 ← recursive_subdivide store k f pos (size.1 / 2, size.2 / 2)
          (inside store pos size pts)
        let t2 ← recursive_subdivide store k f (pos.1 + size.1 / 2, pos.2)
          (size.1 / 2, size.2 / 2)
          (inside store (pos.1 + size.1 / 2, pos.2) (size.1 / 2, size.2 / 2) pts)
        let t3 ← recursive_subdivide store k f (pos.1, pos.2 + size.2 / 2)
          (size.1 / 2, size.2 / 2)
          (inside store (pos.1, pos.2 + size.2 / 2) (size.1 / 2, size.2 / 2) pts)
        let t4 ← recursive_subdivide store k f
          (pos.1 + size.1 / 2, pos.2 + size.2 / 2) (size.1 / 2, size.2 / 2)
          (inside store (pos.1 + size.1 / 2, pos.2 + size.2 / 2)
            (size.1 / 2, size.2 / 2) pts)
        pure (QTree.node pos size t1 t2 t3 t4)) := by
  rw [recursive_subdivide, if_neg hlen]

/-- Every leaf of a built tree lies geometrically inside the root
rectangle, and its point list is a superset of the root bodies that pass
the leaf's own overlap test (a superset because the source filters first
children one level too coarsely). -/
theorem subdivide_leaf_super (store : List Object) (k : ℕ) :
    ∀ (fuel : ℕ) (pos size : ℝ × ℝ) (pts : List ℕ) (t : QTree),
      0 ≤ size.1 → 0 ≤ size.2 →
      recursive_subdivide store k fuel pos size pts = some t →
      ∀ lp ls lpts, LeafIn t lp ls lpts →
        subRect lp ls pos size ∧
          (∀ i ∈ pts, insideCond store lp ls i → i ∈ lpts) := by
  intro fuel
  induction fuel with
  | zero =>
      intro pos size pts t hs1 hs2 h lp ls lpts hli
      by_cases hlen : pts.length ≤ k
      · rw [subdivide_leaf_eq store k 0 pos size pts hlen] at h
        cases h
        cases hli
        exact ⟨⟨le_refl _, le_refl _, le_refl _, le_refl _⟩, fun i hi _ => hi⟩
      · rw [subdivide_zero_eq store k pos size pts hlen] at h
        exact Option.noConfusion h
  | succ f ih =>
      intro pos size pts t hs1 hs2 h lp ls lpts hli
      by_cases hlen : pts.length ≤ k
      · rw [subdivide_leaf_eq store k (f + 1) pos size pts hlen] at h
        cases h
        cases hli
        exact ⟨⟨le_refl _, le_refl _, le_refl _, le_refl _⟩, fun i hi _ => hi⟩
      · rw [subdivide_succ_eq store k f pos size pts hlen] at h
        obtain ⟨t1, t2, t3, t4, h1, h2, h3, h4, ht⟩ := bind4_eq_some h
        subst ht
        have hh1 : (0 : ℝ) ≤ size.1 / 2 := by linarith
        have hh2 : (0 : ℝ) ≤ size.2 / 2 := by linarith
        have hq1 : subRect pos (size.1 / 2, size.2 / 2) pos size :=
          ⟨le_refl _, by dsimp only; linarith, le_refl _, by dsimp only; linarith⟩
        have hq2 : subRect (pos.1 + size.1 / 2, pos.2) (size.1 / 2, size.2 / 2) pos size :=
          ⟨by dsimp only; linarith, by dsimp only; linarith,
            by dsimp only; linarith, by dsimp only; linarith⟩
        have hq3 : subRect (pos.1, pos.2 + size.2 / 2) (size.1 / 2, size.2 / 2) pos size :=
          ⟨by dsimp only; linarith, by dsimp only; linarith,
            by dsimp only; linarith, by dsimp only; linarith⟩
        have hq4 : subRect (pos.1 + size.1 / 2, pos.2 + size.2 / 2)
            (size.1 / 2, size.2 / 2) pos size :=
          ⟨by dsimp only; linarith, by dsimp only; linarith,
            by dsimp only; linarith, by dsimp only; linarith⟩
        cases hli with
        | c1 hli1 =>
            obtain ⟨hsub, hsup⟩ := ih pos (size.1 / 2, size.2 / 2) _ t1 hh1 hh2 h1 lp ls lpts hli1
            refine ⟨subRect_trans _ _ _ _ _ _ hsub hq1, fun i hi hcond => ?_⟩
            refine hsup i ?_ hcond
            rw [mem_inside_iff]
            exact ⟨hi, insideCond_mono store lp ls pos size i
              (subRect_trans _ _ _ _ _ _ hsub hq1) hcond⟩
        | c2 hli2 =>
            obtain ⟨hsub, hsup⟩ := ih (pos.1 + size.1 / 2, pos.2) (size.1 / 2, size.2 / 2)
              _ t2 hh1 hh2 h2 lp ls lpts hli2
            refine ⟨subRect_trans _ _ _ _ _ _ hsub hq2, fun i hi hcond => ?_⟩
            refine hsup i ?_ hcond
            rw [mem_inside_iff]
            exact ⟨hi, insideCond_mono store lp ls _ _ i hsub hcond⟩
        | c3 hli3 =>
            obtain ⟨hsub, hsup⟩ := ih (pos.1, pos.2 + size.2 / 2) (size.1 / 2, size.2 / 2)
              _ t3 hh1 hh2 h3 lp ls lpts hli3
            refine ⟨subRect_trans _ _ _ _ _ _ hsub hq3, fun i hi hcond => ?_⟩
            refine hsup i ?_ hcond
            rw [mem_inside_iff]
            exact ⟨hi, insideCond_mono store lp ls _ _ i hsub hcond⟩
        | c4 hli4 =>
            obtain ⟨hsub, hsup⟩ := ih (pos.1 + size.1 / 2, pos.2 + size.2 / 2)
              (size.1 / 2, size.2 / 2) _ t4 hh1 hh2 h4 lp ls lpts hli4
            refine ⟨subRect_trans _ _ _ _ _ _ hsub hq4, fun i hi hcond => ?_⟩
            refine hsup i ?_ hcond
            rw [mem_inside_iff]
            exact ⟨hi, insideCond_mono store lp ls _ _ i hsub hcond⟩

/-- Every point of the root rectangle falls in some leaf of the built
tree (the four half-open quadrants tile the parent exactly). -/
theorem subdivide_covers (store : List Object) (k : ℕ) :
    ∀ (fuel : ℕ) (pos size : ℝ × ℝ) (pts : List ℕ) (t : QTree),
      recursive_subdivide store k fuel pos size pts = some t →
      ∀ q : ℝ × ℝ, inRegion pos size q →
        ∃ lp ls lpts, LeafIn t lp ls lpts ∧ inRegion lp ls q := by
  intro fuel
  induction fuel with
  | zero =>
      intro pos size pts t h q hq
      by_cases hlen : pts.length ≤ k
      · rw [subdivide_leaf_eq store k 0 pos size pts hlen] at h
        cases h
        exact ⟨pos, size, pts, .self pos size pts, hq⟩
      · rw [subdivide_zero_eq store k pos size pts hlen] at h
        exact Option.noConfusion h
  | succ f ih =>
      intro pos size pts t h q hq
      by_cases hlen : pts.length ≤ k
      · rw [subdivide_leaf_eq store k (f + 1) pos size pts hlen] at h
        cases h
        exact ⟨pos, size, pts, .self pos size pts, hq⟩
      · rw [subdivide_succ_eq store k f pos size pts hlen] at h
        obtain ⟨t1, t2, t3, t4, h1, h2, h3, h4, ht⟩ := bind4_eq_some h
        subst ht
        obtain ⟨r1, r2, r3, r4⟩ := hq
        by_cases hx : q.1 < pos.1 + size.1 / 2 <;> by_cases hy : q.2 < pos.2 + size.2 / 2
        · obtain ⟨lp, ls, lpts, hli, hin⟩ := ih pos (size.1 / 2, size.2 / 2) _ t1 h1 q
            ⟨r1, by dsimp only; linarith, r3, by dsimp only; linarith⟩
          exact ⟨lp, ls, lpts, .c1 hli, hin⟩
        · obtain ⟨lp, ls, lpts, hli, hin⟩ := ih (pos.1, pos.2 + size.2 / 2)
            (size.1 / 2, size.2 / 2) _ t3 h3 q
            ⟨by dsimp only; linarith, by dsimp only; linarith,
              by dsimp only; linarith, by dsimp only; linarith⟩
          exact ⟨lp, ls, lpts, .c3 hli, hin⟩
        · obtain ⟨lp, ls, lpts, hli, hin⟩ := ih (pos.1 + size.1 / 2, pos.2)
            (size.1 / 2, size.2 / 2) _ t2 h2 q
            ⟨by dsimp only; linarith, by dsimp only; linarith,
              by dsimp only; linarith, by dsimp only; linarith⟩
          exact ⟨lp, ls, lpts, .c2 hli, hin⟩
        · obtain ⟨lp, ls, lpts, hli, hin⟩ := ih (pos.1 + size.1 / 2, pos.2 + size.2 / 2)
            (size.1 / 2, size.2 / 2) _ t4 h4 q
            ⟨by dsimp only; linarith, by dsimp only; linarith,
              by dsimp only; linarith, by dsimp only; linarith⟩
          exact ⟨lp, ls, lpts, .c4 hli, hin⟩

/-! ### C9: behaviour of the leaf scans -/

theorem collEq_rfl (c : ℕ × ℕ) : collEq c c := Or.inl ⟨rfl, rfl⟩

theorem collEq_cross {c d e : ℕ × ℕ} (h1 : collEq c e) (h2 : collEq d e) :
    collEq c d := by
  unfold collEq at *
  omega

theorem collMem_append_left {c : ℕ × ℕ} {l : List (ℕ × ℕ)} (h : collMem c l)
    (l2 : List (ℕ × ℕ)) : collMem c (l ++ l2) := by
  obtain ⟨d, hd, he⟩ := h
  exact ⟨d, List.mem_append_left l2 hd, he⟩

theorem scanInner_mono (store : List Object) (i : ℕ) :
    ∀ (js : List ℕ) (acc : List (ℕ × ℕ)) (c : ℕ × ℕ),
      collMem c acc → collMem c (scanInner store i js acc) := by
  intro js
  induction js with
  | nil =>
      intro acc c h
      rw [scanInner]
      exact h
  | cons j rest ih =>
      intro acc c h
      rw [scanInner]
      split_ifs with hcond
      · exact ih _ c (collMem_append_left h _)
      · exact ih _ c h

theorem scanInner_adds (store : List Object) (i j : ℕ) (hij : i ≠ j)
    (hcol : (objAt store i).collides (objAt store j)) :
    ∀ (js : List ℕ) (acc : List (ℕ × ℕ)), j ∈ js →
      collMem (i, j) (scanInner store i js acc) := by
  intro js
  induction js with
  | nil =>
      intro acc h
      cases h
  | cons j' rest ih =>
      intro acc hmem
      rcases List.mem_cons.1 hmem with he | hrest
      · subst he
        rw [scanInner]
        split_ifs with hcond
        · exact scanInner_mono store i rest _ _ ⟨(i, j), by simp, collEq_rfl _⟩
        · have hc : collMem (i, j) acc := by
            by_contra hnc
            exact hcond ⟨hij, hcol, hnc⟩
          exact scanInner_mono store i rest _ _ hc
      · rw [scanInner]
        split_ifs with hcond
        · exact ih _ hrest
        · exact ih _ hrest

theorem scanOuter_mono (store : List Object) (pts : List ℕ) :
    ∀ (outer : List ℕ) (acc : List (ℕ × ℕ)) (c : ℕ × ℕ),
      collMem c acc → collMem c (scanOuter store pts outer acc) := by
  intro outer
  induction outer with
  | nil =>
      intro acc c h
      rw [scanOuter]
      exact h
  | cons i rest ih =>
      intro acc c h
      rw [scanOuter]
      exact ih _ c (scanInner_mono store i pts acc c h)

theorem scanOuter_adds (store : List Object) (pts : List ℕ) (i j : ℕ)
    (hij : i ≠ j) (hcol : (objAt store i).collides (objAt store j))
    (hj : j ∈ pts) :
    ∀ (outer : List ℕ) (acc : List (ℕ × ℕ)), i ∈ outer →
      collMem (i, j) (scanOuter store pts outer acc) := by
  intro outer
  induction outer with
  | nil =>
      intro acc h
      cases h
  | cons i' rest ih =>
      intro acc hmem
      rw [scanOuter]
      rcases List.mem_cons.1 hmem with he | hrest
      · subst he
        exact scanOuter_mono store pts rest _ _
          (scanInner_adds store i j hij hcol pts acc hj)
      · exact ih _ hrest

theorem traverse_mono (store : List Object) :
    ∀ (t : QTree) (acc : List (ℕ × ℕ)) (c : ℕ × ℕ),
      collMem c acc → collMem c (traverse store t acc) := by
  intro t
  induction t with
  | leaf p s pts =>
      intro acc c h
      rw [traverse]
      exact scanOuter_mono store pts pts acc c h
  | node p s t1 t2 t3 t4 ih1 ih2 ih3 ih4 =>
      intro acc c h
      rw [traverse]
      exact ih4 _ c (ih3 _ c (ih2 _ c (ih1 _ c h)))

theorem traverse_adds (store : List Object) (i j : ℕ) (hij : i ≠ j)
    (hcol : (objAt store i).collides (objAt store j)) :
    ∀ (t : QTree) (lp ls : ℝ × ℝ) (lpts : List ℕ),
      LeafIn t lp ls lpts → i ∈ lpts → j ∈ lpts →
      ∀ acc : List (ℕ × ℕ), collMem (i, j) (traverse store t acc) := by
  intro t
  induction t with
  | leaf p s pts =>
      intro lp ls lpts hli hi hj acc
      cases hli
      rw [traverse]
      exact scanOuter_adds store pts i j hij hcol hj pts acc hi
  | node p s t1 t2 t3 t4 ih1 ih2 ih3 ih4 =>
      intro lp ls lpts hli hi hj acc
      rw [traverse]
      cases hli with
      | c1 h =>
          exact traverse_mono store t4 _ _ (traverse_mono store t3 _ _
            (traverse_mono store t2 _ _ (ih1 lp ls lpts h hi hj acc)))
      | c2 h =>
          exact traverse_mono store t4 _ _ (traverse_mono store t3 _ _
            (ih2 lp ls lpts h hi hj _))
      | c3 h =>
          exact traverse_mono store t4 _ _ (ih3 lp ls lpts h hi hj _)
      | c4 h =>
          exact ih4 lp ls lpts h hi hj _

theorem scanInner_pairwise (store : List Object) (i : ℕ) :
    ∀ (js : List ℕ) (acc : List (ℕ × ℕ)),
      acc.Pairwise (fun c d => ¬ collEq c d) →
      (scanInner store i js acc).Pairwise (fun c d => ¬ collEq c d) := by
  intro js
  induction js with
  | nil =>
      intro acc h
      rw [scanInner]
      exact h
  | cons j rest ih =>
      intro acc h
      rw [scanInner]
      split_ifs with hcond
      · apply ih
        rw [List.pairwise_append]
        refine ⟨h, List.pairwise_singleton _ _, ?_⟩
        intro a ha b hb
        rw [List.mem_singleton] at hb
        subst hb
        intro hce
        exact hcond.2.2 ⟨a, ha, hce⟩
      · exact ih _ h

theorem scanOuter_pairwise (store : List Object) (pts : List ℕ) :
    ∀ (outer : List ℕ) (acc : List (ℕ × ℕ)),
      acc.Pairwise (fun c d => ¬ collEq c d) →
      (scanOuter store pts outer acc).Pairwise (fun c d => ¬ collEq c d) := by
  intro outer
  induction outer with
  | nil =>
      intro acc h
      rw [scanOuter]
      exact h
  | cons i rest ih =>
      intro acc h
      rw [scanOuter]
      exact ih _ (scanInner_pairwise store i pts acc h)

/-- The dedup check keeps the pending list free of equivalent pairs. -/
theorem traverse_pairwise (store : List Object) :
    ∀ (t : QTree) (acc : List (ℕ × ℕ)),
      acc.Pairwise (fun c d => ¬ collEq c d) →
      (traverse store t acc).Pairwise (fun c d => ¬ collEq c d) := by
  intro t
  induction t with
  | leaf p s pts =>
      intro acc h
      rw [traverse]
      exact scanOuter_pairwise store pts pts acc h
  | node p s t1 t2 t3 t4 ih1 ih2 ih3 ih4 =>
      intro acc h
      rw [traverse]
      exact ih4 _ (ih3 _ (ih2 _ (ih1 _ h)))

/-- The number of entries of a pending list equivalent (as unordered
pairs) to the pair `c`. -/
def collCount (c : ℕ × ℕ) (l : List (ℕ × ℕ)) : ℕ :=
  l.countP fun d => decide (collEq d c)

theorem collCount_eq_one (c : ℕ × ℕ) :
    ∀ l : List (ℕ × ℕ), l.Pairwise (fun a b => ¬ collEq a b) →
      collMem c l → collCount c l = 1 := by
  intro l
  induction l with
  | nil =>
      intro _ h
      obtain ⟨d, hd, _⟩ := h
      cases hd
  | cons d rest ih =>
      intro hp hm
      rw [List.pairwise_cons] at hp
      unfold collCount
      rw [List.countP_cons]
      by_cases hd : collEq d c
      · have hz : List.countP (fun e => decide (collEq e c)) rest = 0 := by
          rw [List.countP_eq_zero]
          intro e he
          simp only [decide_eq_true_eq]
          intro hec
          exact hp.1 e he (collEq_cross hd hec)
        simp [hz, hd]
      · have hm2 : collMem c rest := by
          obtain ⟨e, he, hec⟩ := hm
          rcases List.mem_cons.1 he with he1 | he1
          · exact absurd (he1 ▸ hec) hd
          · exact ⟨e, he1, hec⟩
        have := ih hp.2 hm2
        unfold collCount at this
        simp [this, hd]

/-! ### C9: a colliding pair shares a leaf and is reported exactly once -/

theorem abs_dx_le_dist (a b : Object) : |a.pos.1 - b.pos.1| ≤ a.dist b := by
  unfold Object.dist
  apply Real.abs_le_sqrt
  nlinarith [sq_nonneg (a.pos.2 - b.pos.2)]

theorem abs_dy_le_dist (a b : Object) : |a.pos.2 - b.pos.2| ≤ a.dist b := by
  unfold Object.dist
  apply Real.abs_le_sqrt
  nlinarith [sq_nonneg (a.pos.1 - b.pos.1)]

set_option maxHeartbeats 1000000 in
/-- C9: starting from an empty pending list, for every pair of distinct
in-bounds bodies of positive radius whose distance is at most the sum of
their radii, `find_collisions` reports exactly one pending entry
equivalent to that pair — even though a straddling body may be stored in
several leaves — and pair equality is transposition-invariant. -/
theorem C9_detection_exactly_once (s : Space) (hpend : s.collisions = [])
    (fuel : ℕ) (s2 : Space) (hfc : find_collisions fuel s = some s2)
    (i j : ℕ) (hij : i ≠ j) (hi : i < s.objects.length) (hj : j < s.objects.length)
    (hra : 0 < (objAt s.objects i).size)
    (hrb : 0 < (objAt s.objects j).size)
    (hax : (objAt s.objects i).size ≤ (objAt s.objects i).pos.1 ∧
      (objAt s.objects i).pos.1 ≤ s.dim.1 - (objAt s.objects i).size ∧
      (objAt s.objects i).size ≤ (objAt s.objects i).pos.2 ∧
      (objAt s.objects i).pos.2 ≤ s.dim.2 - (objAt s.objects i).size)
    (hbx : (objAt s.objects j).size ≤ (objAt s.objects j).pos.1 ∧
      (objAt s.objects j).pos.1 ≤ s.dim.1 - (objAt s.objects j).size ∧
      (objAt s.objects j).size ≤ (objAt s.objects j).pos.2 ∧
      (objAt s.objects j).pos.2 ≤ s.dim.2 - (objAt s.objects j).size)
    (hcol : (objAt s.objects i).collides (objAt s.objects j)) :
    collCount (i, j) s2.collisions = 1 ∧ collEq (i, j) (j, i) := by
  refine ⟨?_, Or.inr ⟨rfl, rfl⟩⟩
  simp only [find_collisions, Option.map_eq_some'] at hfc
  obtain ⟨t, ht, heq⟩ := hfc
  subst heq
  show collCount (i, j) (traverse s.objects t s.collisions) = 1
  rw [hpend]
  obtain ⟨ha1, ha2, ha3, ha4⟩ := hax
  obtain ⟨hb1, hb2, hb3, hb4⟩ := hbx
  have hdx : |(objAt s.objects i).pos.1 - (objAt s.objects j).pos.1| ≤
      (objAt s.objects i).size + (objAt s.objects j).size :=
    le_trans (abs_dx_le_dist _ _) hcol
  have hdy : |(objAt s.objects i).pos.2 - (objAt s.objects j).pos.2| ≤
      (objAt s.objects i).size + (objAt s.objects j).size :=
    le_trans (abs_dy_le_dist _ _) hcol
  rw [abs_le] at hdx hdy
  obtain ⟨hdx1, hdx2⟩ := hdx
  obtain ⟨hdy1, hdy2⟩ := hdy
  set a := objAt s.objects i with ha
  set b := objAt s.objects j with hb
  set q : ℝ × ℝ := (max (a.pos.1 - a.size) (b.pos.1 - b.size),
    max (a.pos.2 - a.size) (b.pos.2 - b.size)) with hqdef
  have hq1 : q.1 = max (a.pos.1 - a.size) (b.pos.1 - b.size) := rfl
  have hq2 : q.2 = max (a.pos.2 - a.size) (b.pos.2 - b.size) := rfl
  have hroot : inRegion (0, 0) s.dim q := by
    refine ⟨?_, ?_, ?_, ?_⟩
    · show (0 : ℝ) ≤ q.1
      rw [hq1]
      have h0 : (0 : ℝ) ≤ a.pos.1 - a.size := by linarith
      exact le_trans h0 (le_max_left _ _)
    · show q.1 < 0 + s.dim.1
      rw [hq1]
      have hma : a.pos.1 - a.size < 0 + s.dim.1 := by linarith
      have hmb : b.pos.1 - b.size < 0 + s.dim.1 := by linarith
      exact max_lt hma hmb
    · show (0 : ℝ) ≤ q.2
      rw [hq2]
      have h0 : (0 : ℝ) ≤ a.pos.2 - a.size := by linarith
      exact le_trans h0 (le_max_left _ _)
    · show q.2 < 0 + s.dim.2
      rw [hq2]
      have hma : a.pos.2 - a.size < 0 + s.dim.2 := by linarith
      have hmb : b.pos.2 - b.size < 0 + s.dim.2 := by linarith
      exact max_lt hma hmb
  obtain ⟨lp, ls, lpts, hli, hinleaf⟩ := subdivide_covers s.objects QUADTREE_K fuel
    (0, 0) s.dim (List.range s.objects.length) t ht q hroot
  have hdim1 : (0 : ℝ) ≤ s.dim.1 := by linarith
  have hdim2 : (0 : ℝ) ≤ s.dim.2 := by linarith
  obtain ⟨hsub, hsup⟩ := subdivide_leaf_super s.objects QUADTREE_K fuel (0, 0) s.dim
    (List.range s.objects.length) t hdim1 hdim2 ht lp ls lpts hli
  have hmi : i ∈ lpts := by
    refine hsup i (List.mem_range.2 hi) ?_
    refine insideCond_of_point s.objects lp ls i q hinleaf ?_ ?_ ?_ ?_
    · rw [hq1]
      exact le_max_left _ _
    · rw [hq1]
      exact max_le (by linarith) (by linarith)
    · rw [hq2]
      exact le_max_left _ _
    · rw [hq2]
      exact max_le (by linarith) (by linarith)
  have hmj : j ∈ lpts := by
    refine hsup j (List.mem_range.2 hj) ?_
    refine insideCond_of_point s.objects lp ls j q hinleaf ?_ ?_ ?_ ?_
    · rw [hq1]
      exact le_max_right _ _
    · rw [hq1]
      exact max_le (by linarith) (by linarith)
    · rw [hq2]
      exact le_max_right _ _
    · rw [hq2]
      exact max_le (by linarith) (by linarith)
  have hmem := traverse_adds s.objects i j hij hcol t lp ls lpts hli hmi hmj []
  have hpair := traverse_pairwise s.objects t [] List.Pairwise.nil
  exact collCount_eq_one (i, j) _ hpair hmem

/-- First body for the C9 witness. -/
def w9A : Object := mkObject (100, 100) 10 (0, 0) 10 c0

/-- Second body for the C9 witness, overlapping the first (distance 12). -/
def w9B : Object := mkObject (112, 100) 10 (0, 0) 10 c0

/-- The C9 witness space. -/
def spaceW9 : Space := mkSpace [w9A, w9B] (800, 800)

/-- The C9 witness space after detection. -/
def spaceW9' : Space := ⟨[w9A, w9B], (800, 800), [(0, 1)]⟩

/-- Witness for `C9_detection_exactly_once` on a concrete overlapping
pair. -/
theorem C9_witness :
    (spaceW9.collisions = [] ∧
        find_collisions 1 spaceW9 = some spaceW9' ∧
        (0 : ℕ) ≠ 1 ∧ 0 < spaceW9.objects.length ∧ 1 < spaceW9.objects.length ∧
        0 < (objAt spaceW9.objects 0).size ∧ 0 < (objAt spaceW9.objects 1).size ∧
        ((objAt spaceW9.objects 0).size ≤ (objAt spaceW9.objects 0).pos.1 ∧
          (objAt spaceW9.objects 0).pos.1 ≤ spaceW9.dim.1 - (objAt spaceW9.objects 0).size ∧
          (objAt spaceW9.objects 0).size ≤ (objAt spaceW9.objects 0).pos.2 ∧
          (objAt spaceW9.objects 0).pos.2 ≤ spaceW9.dim.2 - (objAt spaceW9.objects 0).size) ∧
        ((objAt spaceW9.objects 1).size ≤ (objAt spaceW9.objects 1).pos.1 ∧
          (objAt spaceW9.objects 1).pos.1 ≤ spaceW9.dim.1 - (objAt spaceW9.objects 1).size ∧
          (objAt spaceW9.objects 1).size ≤ (objAt spaceW9.objects 1).pos.2 ∧
          (objAt spaceW9.objects 1).pos.2 ≤ spaceW9.dim.2 - (objAt spaceW9.objects 1).size) ∧
        (objAt spaceW9.objects 0).collides (objAt spaceW9.objects 1)) ∧
      (collCount (0, 1) spaceW9'.collisions = 1 ∧ collEq (0, 1) (1, 0)) := by
  have hpend : spaceW9.collisions = [] := rfl
  have ho0 : objAt spaceW9.objects 0 = w9A := rfl
  have ho1 : objAt spaceW9.objects 1 = w9B := rfl
  have hcol : (objAt spaceW9.objects 0).collides (objAt spaceW9.objects 1) := by
    rw [ho0, ho1, collides_iff_sq]
    unfold w9A w9B mkObject
    norm_num
  have hr : List.range 2 = [0, 1] := by decide
  have htree : recursive_subdivide [w9A, w9B] QUADTREE_K 1 (0, 0) (800, 800)
      (List.range 2) = some (.leaf (0, 0) (800, 800) [0, 1]) := by
    rw [hr, recursive_subdivide]
    norm_num [QUADTREE_K]
  have hfc : find_collisions 1 spaceW9 = some spaceW9' := by
    unfold find_collisions
    rw [show spaceW9.objects = [w9A, w9B] from rfl,
      show spaceW9.dim = ((800 : ℝ), 800) from rfl,
      show ([w9A, w9B] : List Object).length = 2 from rfl, htree]
    rw [show spaceW9.collisions = ([] : List (ℕ × ℕ)) from rfl]
    have hpa : w9A.pos = (100, 100) := rfl
    have hpb : w9B.pos = (112, 100) := rfl
    have hsa : w9A.size = 10 := rfl
    have hsb : w9B.size = 10 := rfl
    norm_num [traverse, scanOuter, scanInner, collides_iff_sq, collMem, collEq,
      hpa, hpb, hsa, hsb, spaceW9, spaceW9', mkSpace,
      show objAt [w9A, w9B] 0 = w9A from rfl, show objAt [w9A, w9B] 1 = w9B from rfl]
  have hax : (objAt spaceW9.objects 0).size ≤ (objAt spaceW9.objects 0).pos.1 ∧
      (objAt spaceW9.objects 0).pos.1 ≤ spaceW9.dim.1 - (objAt spaceW9.objects 0).size ∧
      (objAt spaceW9.objects 0).size ≤ (objAt spaceW9.objects 0).pos.2 ∧
      (objAt spaceW9.objects 0).pos.2 ≤ spaceW9.dim.2 - (objAt spaceW9.objects 0).size := by
    rw [ho0, show spaceW9.dim = ((800 : ℝ), 800) from rfl]
    unfold w9A mkObject
    norm_num
  have hbx : (objAt spaceW9.objects 1).size ≤ (objAt spaceW9.objects 1).pos.1 ∧
      (objAt spaceW9.objects 1).pos.1 ≤ spaceW9.dim.1 - (objAt spaceW9.objects 1).size ∧
      (objAt spaceW9.objects 1).size ≤ (objAt spaceW9.objects 1).pos.2 ∧
      (objAt spaceW9.objects 1).pos.2 ≤ spaceW9.dim.2 - (objAt spaceW9.objects 1).size := by
    rw [ho1, show spaceW9.dim = ((800 : ℝ), 800) from rfl]
    unfold w9B mkObject
    norm_num
  have hra : 0 < (objAt spaceW9.objects 0).size := by
    rw [ho0]
    unfold w9A mkObject
    norm_num
  have hrb : 0 < (objAt spaceW9.objects 1).size := by
    rw [ho1]
    unfold w9B mkObject
    norm_num
  have hlen0 : 0 < spaceW9.objects.length := by norm_num [spaceW9, mkSpace]
  have hlen1 : 1 < spaceW9.objects.length := by norm_num [spaceW9, mkSpace]
  exact ⟨⟨hpend, hfc, by norm_num, hlen0, hlen1, hra, hrb, hax, hbx, hcol⟩,
    C9_detection_exactly_once spaceW9 hpend 1 spaceW9' hfc 0 1 (by norm_num)
      hlen0 hlen1 hra hrb hax hbx hcol⟩

end Simulator
